import Mathlib

/-!
A shallow embedding of the user-level threading runtime in `threads.cpp`
(thread table, round-robin scheduler, join/zombie lifecycle, counting
semaphores), together with proofs about the claims of the specification.

The embedding models the observable state of the runtime: the fixed thread
table `tcb_array`, the globals `num_threads` and `current_thread`, and the
semaphore directory (`semaphore_keys`/`semaphore_map`, kept as an ordered
association list).  Machine pointers are modelled by their observable
content: a `stack` pointer by whether it is non-null, `void*` values
(`arg`, `return_value`, function pointers) by integers with `0` for `NULL`.
The saved `jmp_buf` context of a thread that blocked inside `pthread_join`
is modelled by the one datum the resumed code reads from its frame, the
local `target_index`; it is stored in the field `pending_join`.
Signal handling and the interval timer are modelled by allowing the
scheduler step (the body of `signal_handler`) to fire between any two
operations.
-/

set_option maxRecDepth 20000

namespace UThreads

/-- MAX_THREADS from threads.cpp. -/
def MAX_THREADS : Nat := 150

/-- SEM_VALUE_MAX as redefined in threads.cpp. -/
def SEM_VALUE_MAX : Nat := 65536

/-- MAX_SEMAPHORES from threads.cpp. -/
def MAX_SEMAPHORES : Nat := 128

/-- Thread states of the `ThreadStatus` enum. -/
inductive ThreadStatus where
  | READY
  | RUNNING
  | EXITED
  | BLOCKED
deriving DecidableEq

/-- One record of `tcb_array`.  `stack` records whether the stack pointer is
non-null; `pending_join` models the saved context of a thread suspended in
the blocking path of `pthread_join` (the `target_index` local the resumed
frame will read). -/
structure TCB where
  thread_id : Int
  stack : Bool
  status : ThreadStatus
  start_routine : Int
  arg : Int
  return_value : Int
  joined_by : Int
  has_been_joined : Bool
  pending_join : Option Nat
deriving DecidableEq

instance : Inhabited TCB :=
  ⟨{ thread_id := 0, stack := false, status := ThreadStatus.EXITED,
     start_routine := 0, arg := 0, return_value := 0, joined_by := -1,
     has_been_joined := true, pending_join := none }⟩

/-- One `SemaphoreData` record.  `queue_size` is the length of
`waiting_queue`. -/
structure SemaphoreData where
  initialized : Bool
  value : Nat
  waiting_queue : List Nat
  queue_capacity : Nat
deriving DecidableEq

/-- The global state of the runtime: `tcb_array` (length `MAX_THREADS`),
`num_threads`, `current_thread`, the `initialized` flag, and the semaphore
directory as the ordered list of `(semaphore_keys[i], semaphore_map[i])`
pairs for `i < num_semaphores`. -/
structure SysState where
  tcb : List TCB
  num_threads : Nat
  current_thread : Nat
  init_done : Bool
  sems : List (Int × SemaphoreData)
deriving DecidableEq

/-- `tcb_array[i]` (out-of-range reads give the default record). -/
def getTCB (s : SysState) (i : Nat) : TCB := s.tcb.getD i default

/-- `tcb_array[i].status`. -/
def statusOf (s : SysState) (i : Nat) : ThreadStatus := (getTCB s i).status

/-- Write `tcb_array[i]`. -/
def setTCB (s : SysState) (i : Nat) (t : TCB) : SysState :=
  { s with tcb := s.tcb.set i t }

/-- `tcb_array[i].status = st`. -/
def setStatusS (s : SysState) (i : Nat) (st : ThreadStatus) : SysState :=
  setTCB s i { getTCB s i with status := st }

/-- `get_semaphore_data`: linear scan of `semaphore_keys` returning the
first mapping for `sem`. -/
def get_semaphore_data (s : SysState) (sem : Int) : Option SemaphoreData :=
  (s.sems.find? (fun p => p.1 == sem)).map Prod.snd

/-- Writing through the `SemaphoreData*` returned by `get_semaphore_data`:
replace the first entry whose key is `sem`. -/
def updateFirst : List (Int × SemaphoreData) → Int → SemaphoreData →
    List (Int × SemaphoreData)
  | [], _, _ => []
  | p :: rest, k, d => if p.1 == k then (p.1, d) :: rest
                       else p :: updateFirst rest k d

/-- State updated through the pointer obtained from `get_semaphore_data`. -/
def set_semaphore_data (s : SysState) (sem : Int) (d : SemaphoreData) :
    SysState :=
  { s with sems := updateFirst s.sems sem d }

/-- `remove_semaphore_mapping`: drop the first entry for `sem`, shifting the
rest down (relative order preserved). -/
def remove_semaphore_mapping : List (Int × SemaphoreData) → Int →
    List (Int × SemaphoreData)
  | [], _ => []
  | p :: rest, k => if p.1 == k then rest
                    else p :: remove_semaphore_mapping rest k

/-- The init loop of `init_threading`: records `initTCB i` for slots
`i, i+1, ...`. -/
def initTCB (i : Nat) : TCB :=
  { thread_id := (i : Int), stack := false, status := ThreadStatus.EXITED,
    start_routine := 0, arg := 0, return_value := 0, joined_by := -1,
    has_been_joined := decide (0 < i), pending_join := none }

/-- The table built by the `for` loop of `init_threading`, starting at slot
`i` with `fuel` slots to go. -/
def initTCBsFrom (i : Nat) : Nat → List TCB
  | 0 => []
  | fuel + 1 => initTCB i :: initTCBsFrom (i + 1) fuel

/-- The record of the main thread after `init_threading` (slot 0 set
RUNNING with `has_been_joined = false`). -/
def mainTCB : TCB :=
  { initTCB 0 with
    status := ThreadStatus.RUNNING
    has_been_joined := false }

/-- State effect of `init_threading` (signal/timer installation is outside
the model). -/
def init_threading (s : SysState) : SysState :=
  if s.init_done then s
  else
    { s with
      tcb := (initTCBsFrom 0 MAX_THREADS).set 0 mainTCB,
      num_threads := 1,
      current_thread := 0,
      init_done := true }

/-- The pristine process state: zero-initialized globals, before
`init_threading` has ever run. -/
def pristine : SysState :=
  { tcb := List.replicate MAX_THREADS
      { thread_id := 0, stack := false, status := ThreadStatus.READY,
        start_routine := 0, arg := 0, return_value := 0, joined_by := 0,
        has_been_joined := false, pending_join := none },
    num_threads := 0, current_thread := 0, init_done := false, sems := [] }

/-- The state right after initialization. -/
def initState : SysState := init_threading pristine

/-- Outcome of an operation that may terminate the whole process:
`term code` models `cleanup_all_resources(); exit(code)`. -/
inductive StepOut where
  | term (code : Nat)
  | next (s : SysState)
deriving DecidableEq

/-- The `while (checked_count < num_threads)` loop of `schedule`: advance
`current` circularly, return the first slot found READY.  `fuel` is
`num_threads - checked_count`. -/
def scheduleLoop (tcb : List TCB) (n : Nat) (cur : Nat) : Nat → Option Nat
  | 0 => none
  | fuel + 1 =>
    let nxt := (cur + 1) % n
    if (tcb.getD nxt default).status = ThreadStatus.READY then some nxt
    else scheduleLoop tcb n nxt fuel

/-- The `all_exited` scan in `schedule` and `pthread_exit`. -/
def allExited (s : SysState) : Bool :=
  (List.range s.num_threads).all
    (fun i => (s.tcb.getD i default).status == ThreadStatus.EXITED)

/-- `schedule()`: pick the first READY slot after `current` circularly and
make it RUNNING; if none is READY and all slots are EXITED, clean up and
`exit(0)`; otherwise restore the original `current`, setting it back to
RUNNING only when its status is neither EXITED nor BLOCKED. -/
def schedule (s : SysState) : StepOut :=
  match scheduleLoop s.tcb s.num_threads s.current_thread s.num_threads with
  | some k => StepOut.next { (setStatusS s k ThreadStatus.RUNNING) with
                              current_thread := k }
  | none =>
    if allExited s then StepOut.term 0
    else if statusOf s s.current_thread ≠ ThreadStatus.EXITED ∧
            statusOf s s.current_thread ≠ ThreadStatus.BLOCKED then
      StepOut.next (setStatusS s s.current_thread ThreadStatus.RUNNING)
    else StepOut.next s

/-- The state effect of `signal_handler` on the direct (`setjmp == 0`)
path: demote the interrupted thread from RUNNING to READY, then run
`schedule` and jump to the new `current`. -/
def signal_handler (s : SysState) : StepOut :=
  let s1 := if statusOf s s.current_thread = ThreadStatus.RUNNING
            then setStatusS s s.current_thread ThreadStatus.READY
            else s
  schedule s1

/-- `pthread_create`.  `stack_alloc` is the outcome of `malloc(STACK_SIZE)`.
Returns (return code, value stored through `*thread`, new state). -/
def pthread_create (s0 : SysState) (start_routine arg : Int)
    (stack_alloc : Bool) : Int × Option Int × SysState :=
  let s := init_threading s0
  if MAX_THREADS ≤ s.num_threads then (-1, none, s)
  else
    let new_id := s.num_threads
    let s := { s with num_threads := s.num_threads + 1 }
    let s := setTCB s new_id
      { thread_id := (new_id : Int), stack := stack_alloc,
        status := ThreadStatus.READY, start_routine := start_routine,
        arg := arg, return_value := 0, joined_by := -1,
        has_been_joined := false, pending_join := none }
    if stack_alloc = false then
      (-1, none, { s with num_threads := s.num_threads - 1 })
    else (0, some (new_id : Int), s)

/-- First half of `pthread_exit`: record the return value and mark the
caller EXITED. -/
def exitRecord (value_ptr : Int) (s : SysState) : SysState :=
  setTCB s s.current_thread
    { getTCB s s.current_thread with
      return_value := value_ptr
      status := ThreadStatus.EXITED }

/-- Second half of `pthread_exit`: wake a recorded joiner. -/
def exitWake (s : SysState) : SysState :=
  let j := (getTCB s s.current_thread).joined_by
  if j ≠ -1 then setStatusS s j.toNat ThreadStatus.READY else s

/-- `pthread_exit(value_ptr)`: record the return value, mark the caller
EXITED, wake a recorded joiner, and either clean up and `exit(0)` (all
slots EXITED) or switch to the outcome of `schedule`. -/
def pthread_exit (value_ptr : Int) (s : SysState) : StepOut :=
  let s := exitWake (exitRecord value_ptr s)
  if allExited s then StepOut.term 0 else schedule s

/-- ESRCH on this platform. -/
def ESRCH : Int := 3

/-- EINVAL on this platform. -/
def EINVAL : Int := 22

/-- EDEADLK on this platform. -/
def EDEADLK : Int := 35

/-- The handle lookup loop of `pthread_join`: first `i < num_threads` with
`tcb_array[i].thread_id == (int)thread`. -/
def find_thread_index (s : SysState) (thread : Int) : Option Nat :=
  (List.range s.num_threads).find? (fun i => (getTCB s i).thread_id == thread)

/-- The zombie cleanup block of `pthread_join` (free the stack, clear all
TCB fields, mark `has_been_joined`, memset the context). -/
def reap (s : SysState) (t : Nat) : SysState :=
  setTCB s t
    { thread_id := 0, stack := false, status := ThreadStatus.EXITED,
      start_routine := 0, arg := 0, return_value := 0, joined_by := -1,
      has_been_joined := true, pending_join := none }

/-- Outcome of a `pthread_join` call: either an immediate return (error, or
target already EXITED) carrying the code, the value written through
`value_ptr`, and the new state; or the caller blocked and the CPU switched
to the outcome of `schedule`. -/
inductive JoinOut where
  | ret (code : Int) (out : Option Int) (s : SysState)
  | blocked (r : StepOut)
deriving DecidableEq

/-- The state mutation of the blocking path of `pthread_join`: record the
caller in `joined_by` of the target, block the caller, save its context
(the pending target index). -/
def joinBlockState (s : SysState) (ti : Nat) : SysState :=
  let c := s.current_thread
  let s1 := setTCB s ti { getTCB s ti with joined_by := (c : Int) }
  setTCB s1 c
    { getTCB s1 c with
      status := ThreadStatus.BLOCKED
      pending_join := some ti }

/-- `pthread_join(thread, value_ptr)` up to the context switch. -/
def pthread_join_op (s : SysState) (thread : Int) : JoinOut :=
  match find_thread_index s thread with
  | none => JoinOut.ret ESRCH none s
  | some ti =>
    if (getTCB s ti).has_been_joined then JoinOut.ret EINVAL none s
    else if ti = s.current_thread then JoinOut.ret EDEADLK none s
    else if statusOf s ti = ThreadStatus.EXITED then
      let out := (getTCB s ti).return_value
      JoinOut.ret 0 (some out) (reap s ti)
    else JoinOut.blocked (schedule (joinBlockState s ti))

/-- The resumed tail of the blocking path of `pthread_join` (after
`longjmp` lands back in the joiner): read the target return value, reap
the zombie, return 0. -/
def join_resume (s : SysState) (ti : Nat) : Int × Option Int × SysState :=
  let out := (getTCB s ti).return_value
  let s := reap s ti
  let c := s.current_thread
  let s := setTCB s c { getTCB s c with pending_join := none }
  (0, some out, s)

/-- `sem_init(sem, pshared, value)`.  `alloc` is the outcome of the two
mallocs (record and initial queue). -/
def sem_init_op (s : SysState) (sem : Int) (pshared : Int) (value : Nat)
    (alloc : Bool) : Int × SysState :=
  if pshared ≠ 0 ∨ SEM_VALUE_MAX ≤ value then (-1, s)
  else if alloc = false then (-1, s)
  else if MAX_SEMAPHORES ≤ s.sems.length then (-1, s)
  else (0, { s with sems := s.sems ++
        [(sem, { initialized := true, value := value, waiting_queue := [],
                 queue_capacity := 16 })] })

/-- `sem_destroy(sem)`. -/
def sem_destroy_op (s : SysState) (sem : Int) : Int × SysState :=
  match get_semaphore_data s sem with
  | none => (-1, s)
  | some d =>
    if d.initialized = false then (-1, s)
    else (0, { s with sems := remove_semaphore_mapping s.sems sem })

/-- Outcome of a `sem_wait` call: immediate return, or caller blocked and
CPU switched to the outcome of `schedule`. -/
inductive WaitOut where
  | ret (code : Int) (s : SysState)
  | blocked (r : StepOut)
deriving DecidableEq

/-- The state mutation of the blocking path of `sem_wait`: enqueue the
caller at the tail of the waiting queue (`d2` is the record, its queue
grown if it was full) and mark the caller BLOCKED. -/
def waitBlockState (s : SysState) (sem : Int) (d2 : SemaphoreData) :
    SysState :=
  let c := s.current_thread
  let s1 := set_semaphore_data s sem
    { d2 with waiting_queue := d2.waiting_queue ++ [c] }
  setStatusS s1 c ThreadStatus.BLOCKED

/-- `sem_wait(sem)` up to the context switch.  `alloc` is the outcome of
the `realloc` used to grow a full queue. -/
def sem_wait_op (s : SysState) (sem : Int) (alloc : Bool) : WaitOut :=
  match get_semaphore_data s sem with
  | none => WaitOut.ret (-1) s
  | some d =>
    if d.initialized = false then WaitOut.ret (-1) s
    else if 0 < d.value then
      WaitOut.ret 0 (set_semaphore_data s sem { d with value := d.value - 1 })
    else
      match (if d.queue_capacity ≤ d.waiting_queue.length then
               (if alloc then
                  some { d with queue_capacity := d.queue_capacity * 2 }
                else none)
             else some d) with
      | none => WaitOut.ret (-1) s
      | some d2 => WaitOut.blocked (schedule (waitBlockState s sem d2))

/-- `sem_post(sem)`. -/
def sem_post_op (s : SysState) (sem : Int) : Int × SysState :=
  match get_semaphore_data s sem with
  | none => (-1, s)
  | some d =>
    if d.initialized = false then (-1, s)
    else
      match d.waiting_queue with
      | woken :: rest =>
        let s := set_semaphore_data s sem { d with waiting_queue := rest }
        (0, setStatusS s woken ThreadStatus.READY)
      | [] =>
        if d.value < SEM_VALUE_MAX - 1 then
          (0, set_semaphore_data s sem { d with value := d.value + 1 })
        else (-1, s)

/-! ### List helpers -/

theorem getD_set_self {α : Type _} (l : List α) (i : Nat) (a d : α)
    (h : i < l.length) : (l.set i a).getD i d = a := by
  induction l generalizing i with
  | nil => simp at h
  | cons x xs ih =>
    cases i with
    | zero => rfl
    | succ n =>
      simp only [List.set]
      simpa using ih n (by simpa using h)

theorem getD_set_ne {α : Type _} (l : List α) (i j : Nat) (a d : α)
    (h : i ≠ j) : (l.set i a).getD j d = l.getD j d := by
  induction l generalizing i j with
  | nil => rfl
  | cons x xs ih =>
    cases i with
    | zero =>
      cases j with
      | zero => exact absurd rfl h
      | succ m => rfl
    | succ n =>
      cases j with
      | zero => rfl
      | succ m =>
        simp only [List.set]
        simpa using ih n m (by omega)

theorem length_initTCBsFrom (fuel : Nat) : ∀ i,
    (initTCBsFrom i fuel).length = fuel := by
  induction fuel with
  | zero => intro i; rfl
  | succ n ih => intro i; simp [initTCBsFrom, ih]

theorem getD_initTCBsFrom (fuel : Nat) : ∀ i j d, j < fuel →
    (initTCBsFrom i fuel).getD j d = initTCB (i + j) := by
  induction fuel with
  | zero => intro i j d h; omega
  | succ n ih =>
    intro i j d h
    cases j with
    | zero => rfl
    | succ m =>
      have := ih (i + 1) m d (by omega)
      simpa [initTCBsFrom, Nat.add_assoc, Nat.add_comm 1 m] using this

theorem initState_eq : initState =
    { tcb := (initTCBsFrom 0 MAX_THREADS).set 0 mainTCB, num_threads := 1,
      current_thread := 0, init_done := true, sems := [] } := rfl

theorem initState_tcb_length : initState.tcb.length = MAX_THREADS := by
  rw [initState_eq]
  simp [length_initTCBsFrom]

theorem getTCB_initState_zero : getTCB initState 0 = mainTCB := by
  rw [getTCB, initState_eq]
  exact getD_set_self _ 0 _ _
    (by rw [length_initTCBsFrom]; norm_num [MAX_THREADS])

theorem getTCB_initState_pos (i : Nat) (h0 : 0 < i) (h : i < MAX_THREADS) :
    getTCB initState i = initTCB i := by
  rw [getTCB, initState_eq]
  simp only
  rw [getD_set_ne _ 0 i _ _ (by omega)]
  simpa using getD_initTCBsFrom MAX_THREADS 0 i _ h

theorem getTCB_ge (s : SysState) (i : Nat) (h : s.tcb.length ≤ i) :
    getTCB s i = default := by
  simp only [getTCB]
  rw [List.getD_eq_default]
  omega

/-! ### Semaphore directory helpers -/

theorem find?_sems_decomp (l : List (Int × SemaphoreData)) (k : Int)
    (e : Int × SemaphoreData)
    (h : l.find? (fun p => p.1 == k) = some e) :
    e.1 = k ∧ ∃ l1 l2, l = l1 ++ e :: l2 ∧
      (∀ q ∈ l1, (q.1 == k) = false) ∧
      (∀ d', updateFirst l k d' = l1 ++ (k, d') :: l2) ∧
      remove_semaphore_mapping l k = l1 ++ l2 := by
  induction l with
  | nil => simp [List.find?] at h
  | cons p rest ih =>
    rw [List.find?_cons] at h
    by_cases hp : (p.1 == k) = true
    · simp only [hp] at h
      have he : p = e := Option.some.inj h
      subst he
      refine ⟨by simpa using hp, [], rest, by simp, by simp, ?_, ?_⟩
      · intro d'
        simp [updateFirst, hp, (by simpa using hp : p.1 = k)]
      · simp [remove_semaphore_mapping, hp]
    · have hp' : (p.1 == k) = false := by simpa using hp
      simp only [hp'] at h
      obtain ⟨hek, l1, l2, hsplit, hl1, hupd, hrem⟩ := ih h
      refine ⟨hek, p :: l1, l2, by simp [hsplit], ?_, ?_, ?_⟩
      · intro q hq
        rcases List.mem_cons.mp hq with hq | hq
        · subst hq; simpa using hp
        · exact hl1 q hq
      · intro d'
        simp [updateFirst, hp, hupd d']
      · simp [remove_semaphore_mapping, hp, hrem]

theorem find?_sems_none (l : List (Int × SemaphoreData)) (k : Int)
    (h : l.find? (fun p => p.1 == k) = none) :
    (∀ d', updateFirst l k d' = l) ∧ remove_semaphore_mapping l k = l := by
  induction l with
  | nil => exact ⟨fun _ => rfl, rfl⟩
  | cons p rest ih =>
    rw [List.find?_cons] at h
    by_cases hp : (p.1 == k) = true
    · simp [hp] at h
    · have := ih (by simpa [hp] using h)
      constructor
      · intro d'; simp [updateFirst, hp, this.1 d']
      · simp [remove_semaphore_mapping, hp, this.2]

theorem get_semaphore_data_some (s : SysState) (k : Int) (d : SemaphoreData)
    (h : get_semaphore_data s k = some d) :
    ∃ l1 l2, s.sems = l1 ++ (k, d) :: l2 ∧
      (∀ q ∈ l1, (q.1 == k) = false) ∧
      (∀ d', updateFirst s.sems k d' = l1 ++ (k, d') :: l2) ∧
      remove_semaphore_mapping s.sems k = l1 ++ l2 := by
  simp only [get_semaphore_data, Option.map_eq_some'] at h
  obtain ⟨e, he, hsnd⟩ := h
  obtain ⟨hek, l1, l2, hsplit, hl1, hupd, hrem⟩ := find?_sems_decomp _ _ _ he
  refine ⟨l1, l2, ?_, hl1, hupd, hrem⟩
  have : e = (k, d) := by
    cases e; simp at hek hsnd; simp [hek, hsnd]
  rwa [this] at hsplit

theorem get_set_semaphore_data (s : SysState) (k : Int)
    (d d' : SemaphoreData) (h : get_semaphore_data s k = some d) :
    get_semaphore_data (set_semaphore_data s k d') k = some d' := by
  obtain ⟨l1, l2, _, hl1, hupd, _⟩ := get_semaphore_data_some s k d h
  simp only [get_semaphore_data, set_semaphore_data, hupd d']
  rw [List.find?_append]
  have : l1.find? (fun p => p.1 == k) = none := by
    rw [List.find?_eq_none]
    intro q hq
    simp [hl1 q hq]
  simp [this, List.find?_cons]

/-! ### Characterization of the scheduler scan -/

theorem scheduleLoop_char (tcb : List TCB) (n : Nat) : ∀ fuel cur,
    (∀ k, scheduleLoop tcb n cur fuel = some k ↔
      ∃ j, j < fuel ∧ k = (cur + 1 + j) % n ∧
        (tcb.getD ((cur + 1 + j) % n) default).status = ThreadStatus.READY ∧
        ∀ j', j' < j →
          (tcb.getD ((cur + 1 + j') % n) default).status ≠
            ThreadStatus.READY) ∧
    (scheduleLoop tcb n cur fuel = none ↔
      ∀ j, j < fuel →
        (tcb.getD ((cur + 1 + j) % n) default).status ≠
          ThreadStatus.READY) := by
  intro fuel
  induction fuel with
  | zero =>
    intro cur
    constructor
    · intro k
      constructor
      · intro h; exact absurd h (by simp [scheduleLoop])
      · rintro ⟨j, hj, _⟩; omega
    · constructor
      · intro _ j hj; omega
      · intro _; rfl
  | succ m ih =>
    intro cur
    have harith : ∀ j : Nat,
        ((cur + 1) % n + 1 + j) % n = (cur + 1 + (j + 1)) % n := by
      intro j
      have h1 : (cur + 1) % n + 1 + j = (cur + 1) % n + (1 + j) := by ring
      rw [h1, Nat.mod_add_mod]
      congr 1
      ring
    by_cases hb : (tcb.getD ((cur + 1) % n) default).status =
        ThreadStatus.READY
    · have hL : scheduleLoop tcb n cur (m + 1) = some ((cur + 1) % n) := by
        show (if (tcb.getD ((cur + 1) % n) default).status =
            ThreadStatus.READY then some ((cur + 1) % n)
          else scheduleLoop tcb n ((cur + 1) % n) m) = some ((cur + 1) % n)
        rw [if_pos hb]
      constructor
      · intro k
        rw [hL]
        constructor
        · intro h
          refine ⟨0, by omega, ?_, ?_, ?_⟩
          · simpa using (Option.some.inj h).symm
          · simpa using hb
          · intro j' hj'; omega
        · rintro ⟨j, hj, hk, hready, hmin⟩
          rcases Nat.eq_zero_or_pos j with hj0 | hj0
          · subst hj0; simpa using hk.symm ▸ rfl
          · exact absurd (by simpa using hb) (hmin 0 hj0)
      · rw [hL]
        constructor
        · intro h; exact absurd h (by simp)
        · intro h
          exact absurd (by simpa using hb) (h 0 (by omega))
    · have hL : scheduleLoop tcb n cur (m + 1) =
          scheduleLoop tcb n ((cur + 1) % n) m := by
        show (if (tcb.getD ((cur + 1) % n) default).status =
            ThreadStatus.READY then some ((cur + 1) % n)
          else scheduleLoop tcb n ((cur + 1) % n) m) =
          scheduleLoop tcb n ((cur + 1) % n) m
        rw [if_neg hb]
      obtain ⟨ihSome, ihNone⟩ := ih ((cur + 1) % n)
      constructor
      · intro k
        rw [hL, ihSome k]
        constructor
        · rintro ⟨j, hj, hk, hready, hmin⟩
          refine ⟨j + 1, by omega, ?_, ?_, ?_⟩
          · rwa [← harith j]
          · rw [← harith j]; exact hready
          · intro j' hj'
            cases j' with
            | zero => simpa using hb
            | succ j'' =>
              rw [← harith j'']
              exact hmin j'' (by omega)
        · rintro ⟨j, hj, hk, hready, hmin⟩
          cases j with
          | zero => exact absurd (by simpa using hready) hb
          | succ j'' =>
            refine ⟨j'', by omega, ?_, ?_, ?_⟩
            · rwa [harith j'']
            · rw [harith j'']; exact hready
            · intro j' hj'
              rw [harith j']
              exact hmin (j' + 1) (by omega)
      · rw [hL, ihNone]
        constructor
        · intro h j hj
          cases j with
          | zero => simpa using hb
          | succ j'' =>
            rw [← harith j'']
            exact h j'' (by omega)
        · intro h j hj
          rw [harith j]
          exact h (j + 1) (by omega)

/-- If the scan returns a slot, that slot is in range and READY. -/
theorem scheduleLoop_some (tcb : List TCB) (n fuel cur k : Nat) (hn : 0 < n)
    (h : scheduleLoop tcb n cur fuel = some k) :
    k < n ∧ (tcb.getD k default).status = ThreadStatus.READY := by
  obtain ⟨j, _, hk, hready, _⟩ := ((scheduleLoop_char tcb n fuel cur).1 k).mp h
  subst hk
  exact ⟨Nat.mod_lt _ hn, hready⟩

/-- If the scan fails, no slot within `fuel` steps of the circular scan is
READY. -/
theorem scheduleLoop_none (tcb : List TCB) (n fuel cur : Nat)
    (h : scheduleLoop tcb n cur fuel = none) :
    ∀ j < fuel, (tcb.getD ((cur + 1 + j) % n) default).status ≠
      ThreadStatus.READY :=
  (scheduleLoop_char tcb n fuel cur).2.mp h

/-! ### The transition system

API operations execute on the CPU of the thread indexed by
`current_thread`; in the regime the specification describes, that thread
has status RUNNING (`runningGuard`).  The timer signal (`tick`) can fire
between any two operations.  `joinResume` is the resumed tail of a
blocking `pthread_join`; its woken caller was made READY by the target
exiting, hence the target is EXITED there. -/

/-- The thread invoking an API call is the one holding the CPU. -/
def runningGuard (s : SysState) : Prop :=
  statusOf s s.current_thread = ThreadStatus.RUNNING

instance (s : SysState) : Decidable (runningGuard s) :=
  inferInstanceAs (Decidable (statusOf s s.current_thread =
    ThreadStatus.RUNNING))

/-- One observable step of the runtime. -/
inductive Step : SysState → SysState → Prop where
  | tick (s s' : SysState) :
      signal_handler s = StepOut.next s' → Step s s'
  | create (s : SysState) (f a : Int) (alloc : Bool) (r : Int)
      (h : Option Int) (s' : SysState) :
      runningGuard s → pthread_create s f a alloc = (r, h, s') → Step s s'
  | texit (s : SysState) (v : Int) (s' : SysState) :
      runningGuard s → pthread_exit v s = StepOut.next s' → Step s s'
  | joinRet (s : SysState) (th : Int) (code : Int) (out : Option Int)
      (s' : SysState) :
      runningGuard s → pthread_join_op s th = JoinOut.ret code out s' →
      Step s s'
  | joinBlock (s : SysState) (th : Int) (s' : SysState) :
      runningGuard s →
      pthread_join_op s th = JoinOut.blocked (StepOut.next s') → Step s s'
  | joinResume (s : SysState) (ti : Nat) (code : Int) (out : Option Int)
      (s' : SysState) :
      runningGuard s →
      (getTCB s s.current_thread).pending_join = some ti →
      statusOf s ti = ThreadStatus.EXITED →
      ti < s.num_threads →
      join_resume s ti = (code, out, s') → Step s s'
  | semInit (s : SysState) (sem pshared : Int) (v : Nat) (alloc : Bool)
      (r : Int) (s' : SysState) :
      runningGuard s → sem_init_op s sem pshared v alloc = (r, s') →
      Step s s'
  | semWaitRet (s : SysState) (sem : Int) (alloc : Bool) (r : Int)
      (s' : SysState) :
      runningGuard s → sem_wait_op s sem alloc = WaitOut.ret r s' →
      Step s s'
  | semWaitBlock (s : SysState) (sem : Int) (alloc : Bool) (s' : SysState) :
      runningGuard s →
      sem_wait_op s sem alloc = WaitOut.blocked (StepOut.next s') →
      Step s s'
  | semPost (s : SysState) (sem : Int) (r : Int) (s' : SysState) :
      runningGuard s → sem_post_op s sem = (r, s') → Step s s'
  | semDestroy (s : SysState) (sem : Int) (r : Int) (s' : SysState) :
      runningGuard s → sem_destroy_op s sem = (r, s') → Step s s'

/-- States reachable from the initialized runtime. -/
def Reachable (s : SysState) : Prop :=
  Relation.ReflTransGen Step initState s

/-- Number of occurrences of thread slot `j` across all semaphore waiting
queues. -/
def queueCount (s : SysState) (j : Nat) : Nat :=
  (s.sems.map (fun p => p.2.waiting_queue.count j)).sum

/-! ### Framing lemmas -/

theorem getTCB_setTCB_self (s : SysState) (i : Nat) (t : TCB)
    (h : i < s.tcb.length) : getTCB (setTCB s i t) i = t :=
  getD_set_self _ _ _ _ h

theorem getTCB_setTCB_ne (s : SysState) (i j : Nat) (t : TCB)
    (h : i ≠ j) : getTCB (setTCB s i t) j = getTCB s j :=
  getD_set_ne _ _ _ _ _ h

theorem setTCB_frame (s : SysState) (i : Nat) (t : TCB) :
    (setTCB s i t).num_threads = s.num_threads ∧
    (setTCB s i t).current_thread = s.current_thread ∧
    (setTCB s i t).sems = s.sems ∧
    (setTCB s i t).tcb.length = s.tcb.length := by
  refine ⟨rfl, rfl, rfl, ?_⟩
  simp [setTCB]

theorem queueCount_setTCB (s : SysState) (i : Nat) (t : TCB) (j : Nat) :
    queueCount (setTCB s i t) j = queueCount s j := rfl

theorem set_semaphore_data_frame (s : SysState) (k : Int)
    (d : SemaphoreData) :
    (set_semaphore_data s k d).tcb = s.tcb ∧
    (set_semaphore_data s k d).num_threads = s.num_threads ∧
    (set_semaphore_data s k d).current_thread = s.current_thread :=
  ⟨rfl, rfl, rfl⟩

theorem queueCount_set_semaphore_data (s : SysState) (k : Int)
    (d : SemaphoreData) (j : Nat) (h : get_semaphore_data s k = some d) :
    ∃ c0, (∀ d', queueCount (set_semaphore_data s k d') j =
        c0 + d'.waiting_queue.count j) ∧
      queueCount s j = c0 + d.waiting_queue.count j := by
  obtain ⟨l1, l2, hsplit, _, hupd, _⟩ := get_semaphore_data_some s k d h
  refine ⟨(l1.map (fun p => p.2.waiting_queue.count j)).sum +
    (l2.map (fun p => p.2.waiting_queue.count j)).sum, ?_, ?_⟩
  · intro d'
    simp only [queueCount, set_semaphore_data, hupd d', List.map_append,
      List.map_cons, List.sum_append, List.sum_cons]
    ring
  · simp only [queueCount, hsplit, List.map_append, List.map_cons,
      List.sum_append, List.sum_cons]
    ring

theorem mem_set_semaphore_data (s : SysState) (k : Int)
    (d d' : SemaphoreData) (h : get_semaphore_data s k = some d)
    (p : Int × SemaphoreData) (hp : p ∈ (set_semaphore_data s k d').sems) :
    p ∈ s.sems ∨ p = (k, d') := by
  obtain ⟨l1, l2, hsplit, _, hupd, _⟩ := get_semaphore_data_some s k d h
  simp only [set_semaphore_data, hupd d'] at hp
  rcases List.mem_append.mp hp with hp | hp
  · exact Or.inl (by rw [hsplit]; exact List.mem_append.mpr (Or.inl hp))
  · rcases List.mem_cons.mp hp with hp | hp
    · exact Or.inr hp
    · exact Or.inl (by
        rw [hsplit]
        exact List.mem_append.mpr (Or.inr (List.mem_cons.mpr (Or.inr hp))))

theorem mem_remove_semaphore_mapping (l : List (Int × SemaphoreData))
    (k : Int) (p : Int × SemaphoreData)
    (hp : p ∈ remove_semaphore_mapping l k) : p ∈ l := by
  induction l with
  | nil => simp [remove_semaphore_mapping] at hp
  | cons q rest ih =>
    by_cases hq : (q.1 == k) = true
    · simp only [remove_semaphore_mapping, hq, if_true] at hp
      exact List.mem_cons.mpr (Or.inr hp)
    · have hq' : (q.1 == k) = false := by simpa using hq
      simp only [remove_semaphore_mapping, hq', Bool.false_eq_true,
        if_false] at hp
      rcases List.mem_cons.mp hp with hp | hp
      · exact List.mem_cons.mpr (Or.inl hp)
      · exact List.mem_cons.mpr (Or.inr (ih hp))

theorem queueCount_remove_le (l : List (Int × SemaphoreData)) (k : Int)
    (j : Nat) :
    ((remove_semaphore_mapping l k).map
      (fun p => p.2.waiting_queue.count j)).sum ≤
    (l.map (fun p => p.2.waiting_queue.count j)).sum := by
  induction l with
  | nil => simp [remove_semaphore_mapping]
  | cons q rest ih =>
    by_cases hq : (q.1 == k) = true
    · simp only [remove_semaphore_mapping, hq, if_true, List.map_cons,
        List.sum_cons]
      omega
    · have hq' : (q.1 == k) = false := by simpa using hq
      simp only [remove_semaphore_mapping, hq', Bool.false_eq_true, if_false,
        List.map_cons, List.sum_cons]
      omega

/-! ### The inductive invariant -/

/-- Inductive invariant of the runtime state.  `run_cur` says a RUNNING
record can only sit at index `current_thread` (hence there is at most one);
`jb_blocked` is the joined-by invariant restricted to targets that have not
exited; the `q_*` fields describe the semaphore waiting queues. -/
structure Inv (s : SysState) : Prop where
  inited : s.init_done = true
  len : s.tcb.length = MAX_THREADS
  nt_pos : 1 ≤ s.num_threads
  nt_le : s.num_threads ≤ MAX_THREADS
  cur_lt : s.current_thread < s.num_threads
  run_cur : ∀ i, statusOf s i = ThreadStatus.RUNNING → i = s.current_thread
  jb_vals : ∀ i, (getTCB s i).joined_by = -1 ∨
    (0 ≤ (getTCB s i).joined_by ∧
     (getTCB s i).joined_by < (s.num_threads : Int))
  jb_blocked : ∀ i, statusOf s i ≠ ThreadStatus.EXITED →
    (getTCB s i).joined_by ≠ -1 →
    statusOf s (getTCB s i).joined_by.toNat = ThreadStatus.BLOCKED
  jb_uniq : ∀ i i', statusOf s i ≠ ThreadStatus.EXITED →
    statusOf s i' ≠ ThreadStatus.EXITED →
    (getTCB s i).joined_by ≠ -1 →
    (getTCB s i).joined_by = (getTCB s i').joined_by → i = i'
  q_block : ∀ j, 0 < queueCount s j →
    j < s.num_threads ∧ statusOf s j = ThreadStatus.BLOCKED
  q_once : ∀ j, queueCount s j ≤ 1
  q_nojoin : ∀ j, 0 < queueCount s j → ∀ i,
    statusOf s i ≠ ThreadStatus.EXITED →
    (getTCB s i).joined_by ≠ (j : Int)
  sem_zero : ∀ p ∈ s.sems, p.2.waiting_queue ≠ [] → p.2.value = 0

/-- The invariant in the window between demoting / blocking the running
thread and running `schedule`: no record is RUNNING at all. -/
structure PreInv (s : SysState) : Prop where
  inited : s.init_done = true
  len : s.tcb.length = MAX_THREADS
  nt_pos : 1 ≤ s.num_threads
  nt_le : s.num_threads ≤ MAX_THREADS
  cur_lt : s.current_thread < s.num_threads
  noRun : ∀ i, statusOf s i ≠ ThreadStatus.RUNNING
  jb_vals : ∀ i, (getTCB s i).joined_by = -1 ∨
    (0 ≤ (getTCB s i).joined_by ∧
     (getTCB s i).joined_by < (s.num_threads : Int))
  jb_blocked : ∀ i, statusOf s i ≠ ThreadStatus.EXITED →
    (getTCB s i).joined_by ≠ -1 →
    statusOf s (getTCB s i).joined_by.toNat = ThreadStatus.BLOCKED
  jb_uniq : ∀ i i', statusOf s i ≠ ThreadStatus.EXITED →
    statusOf s i' ≠ ThreadStatus.EXITED →
    (getTCB s i).joined_by ≠ -1 →
    (getTCB s i).joined_by = (getTCB s i').joined_by → i = i'
  q_block : ∀ j, 0 < queueCount s j →
    j < s.num_threads ∧ statusOf s j = ThreadStatus.BLOCKED
  q_once : ∀ j, queueCount s j ≤ 1
  q_nojoin : ∀ j, 0 < queueCount s j → ∀ i,
    statusOf s i ≠ ThreadStatus.EXITED →
    (getTCB s i).joined_by ≠ (j : Int)
  sem_zero : ∀ p ∈ s.sems, p.2.waiting_queue ≠ [] → p.2.value = 0

theorem statusOf_setStatusS_self (s : SysState) (k : Nat)
    (st : ThreadStatus) (h : k < s.tcb.length) :
    statusOf (setStatusS s k st) k = st := by
  simp [statusOf, setStatusS, getTCB_setTCB_self s k _ h]

theorem statusOf_setStatusS_ne (s : SysState) (k i : Nat)
    (st : ThreadStatus) (h : k ≠ i) :
    statusOf (setStatusS s k st) i = statusOf s i := by
  simp [statusOf, setStatusS, getTCB_setTCB_ne s k i _ h]

theorem joined_by_setStatusS (s : SysState) (k : Nat) (st : ThreadStatus)
    (hk : k < s.tcb.length) (i : Nat) :
    (getTCB (setStatusS s k st) i).joined_by = (getTCB s i).joined_by := by
  by_cases h : k = i
  · subst h
    simp [setStatusS, getTCB_setTCB_self s k _ hk]
  · simp [setStatusS, getTCB_setTCB_ne s k i _ h]

/-- Promoting one READY slot `k` to RUNNING and making it current restores
the full invariant from a no-RUNNING state. -/
theorem promote_inv (s : SysState) (h : PreInv s) (k : Nat)
    (hk : k < s.num_threads)
    (hready : statusOf s k = ThreadStatus.READY) :
    Inv { setStatusS s k ThreadStatus.RUNNING with current_thread := k } := by
  have hkl : k < s.tcb.length := by
    have := h.nt_le
    rw [h.len]
    omega
  have hframe : ∀ i, (getTCB { setStatusS s k ThreadStatus.RUNNING with
      current_thread := k } i) = getTCB (setStatusS s k ThreadStatus.RUNNING) i :=
    fun i => rfl
  have hst : ∀ i, i ≠ k →
      statusOf { setStatusS s k ThreadStatus.RUNNING with
        current_thread := k } i = statusOf s i := by
    intro i hi
    exact statusOf_setStatusS_ne s k i _ (fun hh => hi hh.symm)
  have hstk : statusOf { setStatusS s k ThreadStatus.RUNNING with
      current_thread := k } k = ThreadStatus.RUNNING :=
    statusOf_setStatusS_self s k _ hkl
  have hjb : ∀ i, (getTCB { setStatusS s k ThreadStatus.RUNNING with
      current_thread := k } i).joined_by = (getTCB s i).joined_by := by
    intro i
    exact joined_by_setStatusS s k _ hkl i
  have hlive : ∀ i, (statusOf { setStatusS s k ThreadStatus.RUNNING with
      current_thread := k } i ≠ ThreadStatus.EXITED ↔
      statusOf s i ≠ ThreadStatus.EXITED) := by
    intro i
    by_cases hik : i = k
    · subst hik
      rw [hstk, hready]
      simp
    · rw [hst i hik]
  have hq : ∀ j, queueCount { setStatusS s k ThreadStatus.RUNNING with
      current_thread := k } j = queueCount s j := fun j => rfl
  refine ⟨h.inited, ?_, h.nt_pos, h.nt_le, hk, ?_, ?_, ?_, ?_, ?_, ?_, ?_,
    ?_⟩
  · show (setStatusS s k ThreadStatus.RUNNING).tcb.length = MAX_THREADS
    simp [setStatusS, setTCB, h.len]
  · intro i hi
    by_cases hik : i = k
    · exact hik
    · rw [hst i hik] at hi
      exact absurd hi (h.noRun i)
  · intro i
    rw [hjb i]
    exact h.jb_vals i
  · intro i hlive2 hjb2
    rw [hjb i] at hjb2 ⊢
    have hlv := (hlive i).mp hlive2
    have hb := h.jb_blocked i hlv hjb2
    have hne : (getTCB s i).joined_by.toNat ≠ k := by
      intro hh
      rw [hh, hready] at hb
      exact ThreadStatus.noConfusion hb
    rw [hst _ hne]
    exact hb
  · intro i i' hl1 hl2 hjb1 hjbeq
    rw [hjb i] at hjb1
    rw [hjb i, hjb i'] at hjbeq
    exact h.jb_uniq i i' ((hlive i).mp hl1) ((hlive i').mp hl2) hjb1 hjbeq
  · intro j hj
    rw [hq j] at hj
    obtain ⟨hjl, hjb2⟩ := h.q_block j hj
    refine ⟨hjl, ?_⟩
    have hne : j ≠ k := by
      intro hh
      rw [hh, hready] at hjb2
      exact ThreadStatus.noConfusion hjb2
    rw [hst j hne]
    exact hjb2
  · intro j
    rw [hq j]
    exact h.q_once j
  · intro j hj i hl
    rw [hq j] at hj
    rw [hjb i]
    exact h.q_nojoin j hj i ((hlive i).mp hl)
  · intro p hp
    exact h.sem_zero p hp

/-- A PreInv state stepping through `schedule` to a next state satisfies
the invariant again. -/
theorem schedule_preserves (s : SysState) (h : PreInv s) (s2 : SysState)
    (hs : schedule s = StepOut.next s2) : Inv s2 := by
  rw [schedule] at hs
  cases hloop : scheduleLoop s.tcb s.num_threads s.current_thread
      s.num_threads with
  | some k =>
    rw [hloop] at hs
    obtain ⟨hk, hready⟩ := scheduleLoop_some s.tcb s.num_threads
      s.num_threads s.current_thread k (by have := h.nt_pos; omega) hloop
    have hs2 : s2 = { setStatusS s k ThreadStatus.RUNNING with
        current_thread := k } := (StepOut.next.inj hs).symm
    rw [hs2]
    exact promote_inv s h k hk hready
  | none =>
    rw [hloop] at hs
    by_cases hall : allExited s = true
    · rw [if_pos hall] at hs
      exact absurd hs (by simp)
    · rw [if_neg hall] at hs
      by_cases helig : statusOf s s.current_thread ≠ ThreadStatus.EXITED ∧
          statusOf s s.current_thread ≠ ThreadStatus.BLOCKED
      · rw [if_pos helig] at hs
        have hready : statusOf s s.current_thread = ThreadStatus.READY := by
          have hnr := h.noRun s.current_thread
          cases hcs : statusOf s s.current_thread with
          | READY => rfl
          | RUNNING => exact absurd hcs hnr
          | EXITED => exact absurd hcs helig.1
          | BLOCKED => exact absurd hcs helig.2
        have hinv := promote_inv s h s.current_thread h.cur_lt hready
        have heq : { setStatusS s s.current_thread ThreadStatus.RUNNING with
            current_thread := s.current_thread } =
            setStatusS s s.current_thread ThreadStatus.RUNNING := rfl
        rw [heq] at hinv
        have hs2 : s2 = setStatusS s s.current_thread ThreadStatus.RUNNING :=
          (StepOut.next.inj hs).symm
        rwa [hs2]
      · rw [if_neg helig] at hs
        have hs2 : s2 = s := (StepOut.next.inj hs).symm
        subst hs2
        exact ⟨h.inited, h.len, h.nt_pos, h.nt_le, h.cur_lt,
          fun i hi => absurd hi (h.noRun i), h.jb_vals, h.jb_blocked,
          h.jb_uniq, h.q_block, h.q_once, h.q_nojoin, h.sem_zero⟩

/-! ### The invariant holds initially and is preserved by every step -/

theorem initState_joined_by (i : Nat) :
    (getTCB initState i).joined_by = -1 := by
  rcases Nat.eq_zero_or_pos i with h0 | h0
  · subst h0
    rw [getTCB_initState_zero]
    rfl
  · rcases Nat.lt_or_ge i MAX_THREADS with hlt | hge
    · rw [getTCB_initState_pos i h0 hlt]
      rfl
    · rw [getTCB_ge _ _ (by rw [initState_tcb_length]; omega)]
      rfl

theorem initState_status_pos (i : Nat) (h0 : 0 < i) :
    statusOf initState i = ThreadStatus.EXITED := by
  rcases Nat.lt_or_ge i MAX_THREADS with hlt | hge
  · rw [statusOf, getTCB_initState_pos i h0 hlt]
    rfl
  · rw [statusOf, getTCB_ge _ _ (by rw [initState_tcb_length]; omega)]
    rfl

theorem inv_init : Inv initState := by
  refine ⟨rfl, initState_tcb_length, Nat.le_refl 1, by norm_num [initState_eq,
    MAX_THREADS], Nat.lt_irrefl 0 |> fun _ => Nat.zero_lt_one, ?_, ?_, ?_,
    ?_, ?_, ?_, ?_, ?_⟩
  · intro i hi
    by_cases h0 : i = 0
    · exact h0
    · have := initState_status_pos i (Nat.pos_of_ne_zero h0)
      rw [this] at hi
      exact absurd hi (by simp)
  · intro i
    exact Or.inl (initState_joined_by i)
  · intro i _ hjb
    exact absurd (initState_joined_by i) hjb
  · intro i i' _ _ hjb _
    exact absurd (initState_joined_by i) hjb
  · intro j hj
    simp [queueCount, initState_eq] at hj
  · intro j
    simp [queueCount, initState_eq]
  · intro j hj
    simp [queueCount, initState_eq] at hj
  · intro p hp
    rw [initState_eq] at hp
    simp at hp

/-- Demoting the RUNNING current thread to READY or BLOCKED yields the
intermediate no-RUNNING invariant. -/
theorem demote_pre (s : SysState) (h : Inv s) (st : ThreadStatus)
    (hc : statusOf s s.current_thread = ThreadStatus.RUNNING)
    (hst1 : st ≠ ThreadStatus.RUNNING) (hst2 : st ≠ ThreadStatus.EXITED) :
    PreInv (setStatusS s s.current_thread st) := by
  have hkl : s.current_thread < s.tcb.length := by
    have h1 := h.cur_lt
    have h2 := h.nt_le
    rw [h.len]
    omega
  have hst : ∀ i, i ≠ s.current_thread →
      statusOf (setStatusS s s.current_thread st) i = statusOf s i := by
    intro i hi
    exact statusOf_setStatusS_ne s _ i _ (fun hh => hi hh.symm)
  have hstc : statusOf (setStatusS s s.current_thread st) s.current_thread
      = st := statusOf_setStatusS_self s _ _ hkl
  have hjb : ∀ i, (getTCB (setStatusS s s.current_thread st) i).joined_by =
      (getTCB s i).joined_by := joined_by_setStatusS s _ _ hkl
  have hlive : ∀ i,
      (statusOf (setStatusS s s.current_thread st) i ≠ ThreadStatus.EXITED ↔
       statusOf s i ≠ ThreadStatus.EXITED) := by
    intro i
    by_cases hik : i = s.current_thread
    · subst hik
      rw [hstc, hc]
      simp [hst2]
    · rw [hst i hik]
  have hq : ∀ j, queueCount (setStatusS s s.current_thread st) j =
      queueCount s j := fun j => rfl
  refine ⟨h.inited, ?_, h.nt_pos, h.nt_le, ?_, ?_, ?_, ?_, ?_, ?_, ?_, ?_,
    ?_⟩
  · show (setStatusS s s.current_thread st).tcb.length = MAX_THREADS
    simp [setStatusS, setTCB, h.len]
  · show s.current_thread < s.num_threads
    exact h.cur_lt
  · intro i hi
    by_cases hik : i = s.current_thread
    · subst hik
      rw [hstc] at hi
      exact absurd hi hst1
    · rw [hst i hik] at hi
      exact hik (h.run_cur i hi)
  · intro i
    rw [hjb i]
    exact h.jb_vals i
  · intro i hl hjb2
    rw [hjb i] at hjb2 ⊢
    have hb := h.jb_blocked i ((hlive i).mp hl) hjb2
    have hne : (getTCB s i).joined_by.toNat ≠ s.current_thread := by
      intro hh
      rw [hh, hc] at hb
      exact ThreadStatus.noConfusion hb
    rw [hst _ hne]
    exact hb
  · intro i i' hl1 hl2 hjb1 hjbeq
    rw [hjb i] at hjb1
    rw [hjb i, hjb i'] at hjbeq
    exact h.jb_uniq i i' ((hlive i).mp hl1) ((hlive i').mp hl2) hjb1 hjbeq
  · intro j hj
    rw [hq j] at hj
    obtain ⟨hjl, hjb2⟩ := h.q_block j hj
    refine ⟨hjl, ?_⟩
    have hne : j ≠ s.current_thread := by
      intro hh
      rw [hh, hc] at hjb2
      exact ThreadStatus.noConfusion hjb2
    rw [hst j hne]
    exact hjb2
  · intro j
    rw [hq j]
    exact h.q_once j
  · intro j hj i hl
    rw [hq j] at hj
    rw [hjb i]
    exact h.q_nojoin j hj i ((hlive i).mp hl)
  · intro p hp
    exact h.sem_zero p hp

theorem tick_preserves (s s' : SysState) (h : Inv s)
    (hs : signal_handler s = StepOut.next s') : Inv s' := by
  simp only [signal_handler] at hs
  by_cases hc : statusOf s s.current_thread = ThreadStatus.RUNNING
  · rw [if_pos hc] at hs
    exact schedule_preserves _ (demote_pre s h ThreadStatus.READY hc
      (by simp) (by simp)) _ hs
  · rw [if_neg hc] at hs
    refine schedule_preserves _ ?_ _ hs
    exact ⟨h.inited, h.len, h.nt_pos, h.nt_le, h.cur_lt,
      fun i hi => absurd (h.run_cur i hi ▸ hi) hc, h.jb_vals, h.jb_blocked,
      h.jb_uniq, h.q_block, h.q_once, h.q_nojoin, h.sem_zero⟩

/-- Common core for the two outcomes of a non-capacity-failed create: slot
`num_threads` is rewritten to a fresh READY record and `num_threads`
becomes `m` (`num_threads` on stack-allocation failure, `num_threads + 1`
on success). -/
theorem create_slot_inv (s : SysState) (h : Inv s) (m : Nat) (t : TCB)
    (hn : s.num_threads < MAX_THREADS) (hm1 : s.num_threads ≤ m)
    (hm2 : m ≤ s.num_threads + 1)
    (hts : t.status = ThreadStatus.READY) (htj : t.joined_by = -1) :
    Inv { s with tcb := s.tcb.set s.num_threads t, num_threads := m } := by
  set n := s.num_threads with hn_def
  have hnl : n < s.tcb.length := by rw [h.len]; omega
  set s2 : SysState := { s with tcb := s.tcb.set n t, num_threads := m }
    with hs2_def
  have hget : ∀ i, i ≠ n → getTCB s2 i = getTCB s i := by
    intro i hi
    show (s.tcb.set n t).getD i default = getTCB s i
    exact getD_set_ne _ _ _ _ _ (fun hh => hi hh.symm)
  have hgetn : getTCB s2 n = t := by
    show (s.tcb.set n t).getD n default = t
    exact getD_set_self _ _ _ _ hnl
  have hstat : ∀ i, i ≠ n → statusOf s2 i = statusOf s i := by
    intro i hi
    rw [statusOf, hget i hi, statusOf]
  have hjlt : ∀ i, (getTCB s i).joined_by ≠ -1 →
      (getTCB s i).joined_by.toNat ≠ n := by
    intro i hji
    rcases h.jb_vals i with hv | ⟨hv1, hv2⟩
    · exact absurd hv hji
    · rw [hn_def]
      omega
  have hq : ∀ j, queueCount s2 j = queueCount s j := fun j => rfl
  refine ⟨h.inited, ?_, ?_, ?_, ?_, ?_, ?_, ?_, ?_, ?_, ?_, ?_, ?_⟩
  · show (s.tcb.set n t).length = MAX_THREADS
    simp [h.len]
  · show 1 ≤ m
    have := h.nt_pos
    rw [← hn_def] at this
    omega
  · show m ≤ MAX_THREADS
    omega
  · show s.current_thread < m
    have := h.cur_lt
    rw [← hn_def] at this
    omega
  · intro i hi
    by_cases hin : i = n
    · subst hin
      rw [statusOf, hgetn, hts] at hi
      exact absurd hi (by simp)
    · rw [hstat i hin] at hi
      exact h.run_cur i hi
  · intro i
    by_cases hin : i = n
    · subst hin
      rw [hgetn, htj]
      exact Or.inl rfl
    · rw [hget i hin]
      rcases h.jb_vals i with hv | ⟨hv1, hv2⟩
      · exact Or.inl hv
      · refine Or.inr ⟨hv1, ?_⟩
        show (getTCB s i).joined_by < (m : Int)
        omega
  · intro i hl hji
    by_cases hin : i = n
    · subst hin
      rw [hgetn, htj] at hji
      exact absurd rfl hji
    · rw [hget i hin] at hji ⊢
      have hlpre : statusOf s i ≠ ThreadStatus.EXITED := by
        rwa [hstat i hin] at hl
      have hb := h.jb_blocked i hlpre hji
      rw [hstat _ (hjlt i hji)]
      exact hb
  · intro i i' hl1 hl2 hjb1 hjbeq
    by_cases hin : i = n
    · subst hin
      rw [hgetn, htj] at hjb1
      exact absurd rfl hjb1
    · by_cases hin' : i' = n
      · subst hin'
        rw [hgetn, htj, hget i hin] at hjbeq
        rw [hget i hin] at hjb1
        exact absurd hjbeq hjb1
      · rw [hget i hin] at hjb1
        rw [hget i hin, hget i' hin'] at hjbeq
        exact h.jb_uniq i i' (by rwa [hstat i hin] at hl1)
          (by rwa [hstat i' hin'] at hl2) hjb1 hjbeq
  · intro j hj
    rw [hq j] at hj
    obtain ⟨hjl, hjb2⟩ := h.q_block j hj
    have hjn : j ≠ n := by omega
    refine ⟨?_, ?_⟩
    · show j < m
      omega
    · rw [hstat j hjn]
      exact hjb2
  · intro j
    rw [hq j]
    exact h.q_once j
  · intro j hj i hl
    rw [hq j] at hj
    by_cases hin : i = n
    · subst hin
      rw [hgetn, htj]
      intro hh
      have : (0 : Int) ≤ (j : Int) := Int.natCast_nonneg j
      omega
    · rw [hget i hin]
      exact h.q_nojoin j hj i (by rwa [hstat i hin] at hl)
  · intro p hp
    exact h.sem_zero p hp

theorem create_preserves (s : SysState) (f a : Int) (alloc : Bool)
    (r : Int) (ho : Option Int) (s' : SysState) (h : Inv s)
    (hc : pthread_create s f a alloc = (r, ho, s')) : Inv s' := by
  have hinit : init_threading s = s := by
    rw [init_threading, if_pos h.inited]
  simp only [pthread_create, hinit] at hc
  by_cases hcap : MAX_THREADS ≤ s.num_threads
  · rw [if_pos hcap] at hc
    cases hc
    exact h
  · rw [if_neg hcap] at hc
    cases halloc : alloc with
    | false =>
      subst halloc
      rw [if_pos rfl] at hc
      cases hc
      exact create_slot_inv s h s.num_threads _ (by omega) (Nat.le_refl _)
        (by omega) rfl rfl
    | true =>
      subst halloc
      rw [if_neg (by simp)] at hc
      cases hc
      exact create_slot_inv s h (s.num_threads + 1) _ (by omega) (by omega)
        (by omega) rfl rfl

/-- After `pthread_exit` has recorded the exit and woken the recorded
joiner, no thread is RUNNING and the remaining invariant holds. -/
theorem exit_pre (v : Int) (s : SysState) (h : Inv s)
    (hg : runningGuard s) : PreInv (exitWake (exitRecord v s)) := by
  have hcl : s.current_thread < s.tcb.length := by
    have h1 := h.cur_lt
    have h2 := h.nt_le
    rw [h.len]
    omega
  have hs1get_c : getTCB (exitRecord v s) s.current_thread =
      { getTCB s s.current_thread with
        return_value := v
        status := ThreadStatus.EXITED } := getTCB_setTCB_self s _ _ hcl
  have hs1get : ∀ i, i ≠ s.current_thread →
      getTCB (exitRecord v s) i = getTCB s i :=
    fun i hi => getTCB_setTCB_ne s _ i _ (fun hh => hi hh.symm)
  have hs1stat_c : statusOf (exitRecord v s) s.current_thread =
      ThreadStatus.EXITED := by rw [statusOf, hs1get_c]
  have hs1stat : ∀ i, i ≠ s.current_thread →
      statusOf (exitRecord v s) i = statusOf s i := by
    intro i hi
    rw [statusOf, hs1get i hi, statusOf]
  have hs1jb : ∀ i, (getTCB (exitRecord v s) i).joined_by =
      (getTCB s i).joined_by := by
    intro i
    by_cases hi : i = s.current_thread
    · subst hi
      rw [hs1get_c]
    · rw [hs1get i hi]
  have hs1len : (exitRecord v s).tcb.length = s.tcb.length := by
    simp [exitRecord, setTCB]
  have hwake : exitWake (exitRecord v s) =
      (if (getTCB s s.current_thread).joined_by ≠ -1 then
        setStatusS (exitRecord v s)
          (getTCB s s.current_thread).joined_by.toNat ThreadStatus.READY
      else exitRecord v s) := by
    show (if (getTCB (exitRecord v s) s.current_thread).joined_by ≠ -1 then
        setStatusS (exitRecord v s)
          (getTCB (exitRecord v s) s.current_thread).joined_by.toNat
          ThreadStatus.READY
      else exitRecord v s) = _
    rw [hs1jb s.current_thread]
  by_cases hj : (getTCB s s.current_thread).joined_by = -1
  · rw [hwake, if_neg (fun hh => hh hj)]
    refine ⟨h.inited, by rw [hs1len, h.len], h.nt_pos, h.nt_le, h.cur_lt,
      ?_, ?_, ?_, ?_, ?_, ?_, ?_, ?_⟩
    · intro i hi
      by_cases hic : i = s.current_thread
      · subst hic
        rw [hs1stat_c] at hi
        exact absurd hi (by simp)
      · rw [hs1stat i hic] at hi
        exact hic (h.run_cur i hi)
    · intro i
      rw [hs1jb i]
      exact h.jb_vals i
    · intro i hl hjb2
      rw [hs1jb i] at hjb2 ⊢
      by_cases hic : i = s.current_thread
      · subst hic
        exact absurd hs1stat_c hl
      · rw [hs1stat i hic] at hl
        have hb := h.jb_blocked i hl hjb2
        have hne : (getTCB s i).joined_by.toNat ≠ s.current_thread := by
          intro hh
          rw [hh, hg] at hb
          exact ThreadStatus.noConfusion hb
        rw [hs1stat _ hne]
        exact hb
    · intro i i' hl1 hl2 hjb1 hjbeq
      by_cases hic : i = s.current_thread
      · subst hic
        exact absurd hs1stat_c hl1
      · by_cases hic' : i' = s.current_thread
        · subst hic'
          exact absurd hs1stat_c hl2
        · rw [hs1jb i] at hjb1
          rw [hs1jb i, hs1jb i'] at hjbeq
          exact h.jb_uniq i i' (by rwa [hs1stat i hic] at hl1)
            (by rwa [hs1stat i' hic'] at hl2) hjb1 hjbeq
    · intro j hj2
      obtain ⟨hjl, hjb2⟩ := h.q_block j hj2
      have hne : j ≠ s.current_thread := by
        intro hh
        rw [hh, hg] at hjb2
        exact ThreadStatus.noConfusion hjb2
      rw [hs1stat j hne]
      exact ⟨hjl, hjb2⟩
    · exact h.q_once
    · intro j hj2 i hl
      rw [hs1jb i]
      by_cases hic : i = s.current_thread
      · subst hic
        exact absurd hs1stat_c hl
      · rw [hs1stat i hic] at hl
        exact h.q_nojoin j hj2 i hl
    · exact h.sem_zero
  · -- a joiner is recorded: it gets woken to READY
    have hlive_c : statusOf s s.current_thread ≠ ThreadStatus.EXITED := by
      rw [hg]
      simp
    rcases h.jb_vals s.current_thread with hv | ⟨hv1, hv2⟩
    · exact absurd hv hj
    have hjcast : ((getTCB s s.current_thread).joined_by.toNat : Int) =
        (getTCB s s.current_thread).joined_by := Int.toNat_of_nonneg hv1
    have hwb : statusOf s (getTCB s s.current_thread).joined_by.toNat =
        ThreadStatus.BLOCKED := h.jb_blocked s.current_thread hlive_c hj
    have hwc : (getTCB s s.current_thread).joined_by.toNat ≠
        s.current_thread := by
      intro hh
      rw [hh, hg] at hwb
      exact ThreadStatus.noConfusion hwb
    have hwlen : (getTCB s s.current_thread).joined_by.toNat <
        (exitRecord v s).tcb.length := by
      rw [hs1len, h.len]
      have := h.nt_le
      omega
    have hqw : queueCount s (getTCB s s.current_thread).joined_by.toNat
        = 0 := by
      by_contra hh
      have hpos : 0 < queueCount s
          (getTCB s s.current_thread).joined_by.toNat := Nat.pos_of_ne_zero hh
      have := h.q_nojoin _ hpos s.current_thread hlive_c
      rw [hjcast] at this
      exact this rfl
    rw [hwake, if_pos hj]
    have hs2stat_w : statusOf (setStatusS (exitRecord v s)
        (getTCB s s.current_thread).joined_by.toNat ThreadStatus.READY)
        (getTCB s s.current_thread).joined_by.toNat =
        ThreadStatus.READY := statusOf_setStatusS_self _ _ _ hwlen
    have hs2stat : ∀ i, i ≠ (getTCB s s.current_thread).joined_by.toNat →
        statusOf (setStatusS (exitRecord v s)
          (getTCB s s.current_thread).joined_by.toNat ThreadStatus.READY) i
        = statusOf (exitRecord v s) i :=
      fun i hi => statusOf_setStatusS_ne _ _ i _ (fun hh => hi hh.symm)
    have hs2jb : ∀ i, (getTCB (setStatusS (exitRecord v s)
        (getTCB s s.current_thread).joined_by.toNat ThreadStatus.READY)
        i).joined_by = (getTCB s i).joined_by := by
      intro i
      rw [joined_by_setStatusS _ _ _ hwlen i, hs1jb i]
    have hs2stat_c : statusOf (setStatusS (exitRecord v s)
        (getTCB s s.current_thread).joined_by.toNat ThreadStatus.READY)
        s.current_thread = ThreadStatus.EXITED := by
      rw [hs2stat _ (fun hh => hwc hh.symm), hs1stat_c]
    have hs2stat_o : ∀ i, i ≠ s.current_thread →
        i ≠ (getTCB s s.current_thread).joined_by.toNat →
        statusOf (setStatusS (exitRecord v s)
          (getTCB s s.current_thread).joined_by.toNat ThreadStatus.READY) i
        = statusOf s i := by
      intro i hic hiw
      rw [hs2stat i hiw, hs1stat i hic]
    refine ⟨h.inited, ?_, h.nt_pos, h.nt_le, h.cur_lt, ?_, ?_, ?_, ?_, ?_,
      ?_, ?_, ?_⟩
    · show (setStatusS (exitRecord v s) _ _).tcb.length = MAX_THREADS
      simp only [setStatusS, setTCB, List.length_set]
      rw [hs1len, h.len]
    · intro i hi
      by_cases hiw : i = (getTCB s s.current_thread).joined_by.toNat
      · subst hiw
        rw [hs2stat_w] at hi
        exact absurd hi (by simp)
      · by_cases hic : i = s.current_thread
        · subst hic
          rw [hs2stat_c] at hi
          exact absurd hi (by simp)
        · rw [hs2stat_o i hic hiw] at hi
          exact hic (h.run_cur i hi)
    · intro i
      rw [hs2jb i]
      exact h.jb_vals i
    · intro i hl hjb2
      rw [hs2jb i] at hjb2 ⊢
      by_cases hic : i = s.current_thread
      · subst hic
        exact absurd hs2stat_c hl
      · by_cases hiw : i = (getTCB s s.current_thread).joined_by.toNat
        · -- the woken joiner: its own recorded joiner stays BLOCKED
          have hlpre : statusOf s i ≠ ThreadStatus.EXITED := by
            rw [hiw, hwb]
            simp
          have hb := h.jb_blocked i hlpre hjb2
          rcases h.jb_vals i with hvi | ⟨hvi1, _⟩
          · exact absurd hvi hjb2
          have hne_c : (getTCB s i).joined_by.toNat ≠ s.current_thread := by
            intro hh
            rw [hh, hg] at hb
            exact ThreadStatus.noConfusion hb
          have hne_w : (getTCB s i).joined_by.toNat ≠
              (getTCB s s.current_thread).joined_by.toNat := by
            intro hh
            have heq : (getTCB s i).joined_by =
                (getTCB s s.current_thread).joined_by := by
              rw [← Int.toNat_of_nonneg hvi1, ← hjcast, hh]
            have := h.jb_uniq i s.current_thread hlpre hlive_c hjb2 heq
            exact hic this
          rw [hs2stat_o _ hne_c hne_w]
          exact hb
        · have hlpre : statusOf s i ≠ ThreadStatus.EXITED := by
            rwa [hs2stat_o i hic hiw] at hl
          have hb := h.jb_blocked i hlpre hjb2
          rcases h.jb_vals i with hvi | ⟨hvi1, _⟩
          · exact absurd hvi hjb2
          have hne_c : (getTCB s i).joined_by.toNat ≠ s.current_thread := by
            intro hh
            rw [hh, hg] at hb
            exact ThreadStatus.noConfusion hb
          have hne_w : (getTCB s i).joined_by.toNat ≠
              (getTCB s s.current_thread).joined_by.toNat := by
            intro hh
            have heq : (getTCB s i).joined_by =
                (getTCB s s.current_thread).joined_by := by
              rw [← Int.toNat_of_nonneg hvi1, ← hjcast, hh]
            have := h.jb_uniq i s.current_thread hlpre hlive_c hjb2 heq
            exact hic this
          rw [hs2stat_o _ hne_c hne_w]
          exact hb
    · intro i i' hl1 hl2 hjb1 hjbeq
      rw [hs2jb i] at hjb1
      rw [hs2jb i, hs2jb i'] at hjbeq
      have hlpre : ∀ k, k ≠ s.current_thread →
          statusOf (setStatusS (exitRecord v s)
            (getTCB s s.current_thread).joined_by.toNat ThreadStatus.READY)
            k ≠ ThreadStatus.EXITED →
          statusOf s k ≠ ThreadStatus.EXITED := by
        intro k hkc hkl
        by_cases hkw : k = (getTCB s s.current_thread).joined_by.toNat
        · rw [hkw, hwb]
          simp
        · rwa [hs2stat_o k hkc hkw] at hkl
      by_cases hic : i = s.current_thread
      · subst hic
        exact absurd hs2stat_c hl1
      · by_cases hic' : i' = s.current_thread
        · subst hic'
          exact absurd hs2stat_c hl2
        · exact h.jb_uniq i i' (hlpre i hic hl1) (hlpre i' hic' hl2)
            hjb1 hjbeq
    · intro j hj2
      have hj2' : 0 < queueCount s j := hj2
      obtain ⟨hjl, hjb2⟩ := h.q_block j hj2'
      have hne_c : j ≠ s.current_thread := by
        intro hh
        rw [hh, hg] at hjb2
        exact ThreadStatus.noConfusion hjb2
      have hne_w : j ≠ (getTCB s s.current_thread).joined_by.toNat := by
        intro hh
        rw [hh, hqw] at hj2'
        exact Nat.lt_irrefl 0 hj2'
      rw [hs2stat_o j hne_c hne_w]
      exact ⟨hjl, hjb2⟩
    · exact h.q_once
    · intro j hj2 i hl
      rw [hs2jb i]
      by_cases hic : i = s.current_thread
      · subst hic
        exact absurd hs2stat_c hl
      · by_cases hiw : i = (getTCB s s.current_thread).joined_by.toNat
        · have hlpre : statusOf s i ≠ ThreadStatus.EXITED := by
            rw [hiw, hwb]
            simp
          exact h.q_nojoin j hj2 i hlpre
        · rw [hs2stat_o i hic hiw] at hl
          exact h.q_nojoin j hj2 i hl
    · exact h.sem_zero

theorem exit_preserves (s : SysState) (v : Int) (s' : SysState)
    (h : Inv s) (hg : runningGuard s)
    (hc : pthread_exit v s = StepOut.next s') : Inv s' := by
  simp only [pthread_exit] at hc
  by_cases hall : allExited (exitWake (exitRecord v s)) = true
  · rw [if_pos hall] at hc
    exact absurd hc (by simp)
  · rw [if_neg hall] at hc
    exact schedule_preserves _ (exit_pre v s h hg) _ hc

theorem find_thread_index_lt (s : SysState) (th : Int) (ti : Nat)
    (h : find_thread_index s th = some ti) : ti < s.num_threads := by
  have := List.mem_of_find?_eq_some h
  exact List.mem_range.mp this

/-- Reaping an already-EXITED slot preserves the invariant. -/
theorem reap_inv (s : SysState) (h : Inv s) (t : Nat)
    (ht : statusOf s t = ThreadStatus.EXITED) (htl : t < s.tcb.length) :
    Inv (reap s t) := by
  have hget_t : getTCB (reap s t) t =
      { thread_id := 0, stack := false, status := ThreadStatus.EXITED,
        start_routine := 0, arg := 0, return_value := 0, joined_by := -1,
        has_been_joined := true, pending_join := none } :=
    getTCB_setTCB_self s t _ htl
  have hget : ∀ i, i ≠ t → getTCB (reap s t) i = getTCB s i :=
    fun i hi => getTCB_setTCB_ne s t i _ (fun hh => hi hh.symm)
  have hstat : ∀ i, statusOf (reap s t) i = statusOf s i := by
    intro i
    by_cases hi : i = t
    · subst hi
      rw [statusOf, hget_t, ht]
    · rw [statusOf, hget i hi, statusOf]
  have hjb_t : (getTCB (reap s t) t).joined_by = -1 := by rw [hget_t]
  have hq : ∀ j, queueCount (reap s t) j = queueCount s j := fun j => rfl
  refine ⟨h.inited, ?_, h.nt_pos, h.nt_le, h.cur_lt, ?_, ?_, ?_, ?_, ?_,
    ?_, ?_, ?_⟩
  · show (s.tcb.set t _).length = MAX_THREADS
    simp [h.len]
  · intro i hi
    rw [hstat i] at hi
    exact h.run_cur i hi
  · intro i
    by_cases hi : i = t
    · subst hi
      exact Or.inl hjb_t
    · rw [hget i hi]
      exact h.jb_vals i
  · intro i hl hjb2
    by_cases hi : i = t
    · subst hi
      exact absurd hjb_t hjb2
    · rw [hget i hi] at hjb2 ⊢
      rw [hstat i] at hl
      rw [hstat]
      exact h.jb_blocked i hl hjb2
  · intro i i' hl1 hl2 hjb1 hjbeq
    by_cases hi : i = t
    · subst hi
      exact absurd hjb_t hjb1
    · by_cases hi' : i' = t
      · subst hi'
        rw [hget i hi, hjb_t] at hjbeq
        rw [hget i hi] at hjb1
        exact absurd hjbeq hjb1
      · rw [hget i hi] at hjb1
        rw [hget i hi, hget i' hi'] at hjbeq
        rw [hstat i] at hl1
        rw [hstat i'] at hl2
        exact h.jb_uniq i i' hl1 hl2 hjb1 hjbeq
  · intro j hj
    rw [hq j] at hj
    rw [hstat j]
    exact h.q_block j hj
  · intro j
    rw [hq j]
    exact h.q_once j
  · intro j hj i hl
    rw [hq j] at hj
    rw [hstat i] at hl
    by_cases hi : i = t
    · subst hi
      rw [hjb_t]
      intro hh
      have : (0 : Int) ≤ (j : Int) := Int.natCast_nonneg j
      omega
    · rw [hget i hi]
      exact h.q_nojoin j hj i hl
  · exact h.sem_zero

/-- Rewriting one slot with a record having the same status and joined_by
(e.g. clearing the pending context) preserves the invariant. -/
theorem inv_update_neutral (s : SysState) (h : Inv s) (k : Nat) (t : TCB)
    (hkl : k < s.tcb.length) (hst : t.status = statusOf s k)
    (hjb : t.joined_by = (getTCB s k).joined_by) : Inv (setTCB s k t) := by
  have hget_k : getTCB (setTCB s k t) k = t := getTCB_setTCB_self s k t hkl
  have hget : ∀ i, i ≠ k → getTCB (setTCB s k t) i = getTCB s i :=
    fun i hi => getTCB_setTCB_ne s k i t (fun hh => hi hh.symm)
  have hstat : ∀ i, statusOf (setTCB s k t) i = statusOf s i := by
    intro i
    by_cases hi : i = k
    · subst hi
      rw [statusOf, hget_k, hst]
    · rw [statusOf, hget i hi, statusOf]
  have hjbs : ∀ i, (getTCB (setTCB s k t) i).joined_by =
      (getTCB s i).joined_by := by
    intro i
    by_cases hi : i = k
    · subst hi
      rw [hget_k, hjb]
    · rw [hget i hi]
  have hq : ∀ j, queueCount (setTCB s k t) j = queueCount s j := fun j => rfl
  refine ⟨h.inited, ?_, h.nt_pos, h.nt_le, h.cur_lt, ?_, ?_, ?_, ?_, ?_,
    ?_, ?_, ?_⟩
  · show (s.tcb.set k t).length = MAX_THREADS
    simp [h.len]
  · intro i hi
    rw [hstat i] at hi
    exact h.run_cur i hi
  · intro i
    rw [hjbs i]
    exact h.jb_vals i
  · intro i hl hjb2
    rw [hjbs i] at hjb2 ⊢
    rw [hstat i] at hl
    rw [hstat]
    exact h.jb_blocked i hl hjb2
  · intro i i' hl1 hl2 hjb1 hjbeq
    rw [hjbs i] at hjb1
    rw [hjbs i, hjbs i'] at hjbeq
    rw [hstat i] at hl1
    rw [hstat i'] at hl2
    exact h.jb_uniq i i' hl1 hl2 hjb1 hjbeq
  · intro j hj
    rw [hq j] at hj
    rw [hstat j]
    exact h.q_block j hj
  · intro j
    rw [hq j]
    exact h.q_once j
  · intro j hj i hl
    rw [hq j] at hj
    rw [hstat i] at hl
    rw [hjbs i]
    exact h.q_nojoin j hj i hl
  · exact h.sem_zero

theorem joinRet_preserves (s : SysState) (th code : Int) (out : Option Int)
    (s' : SysState) (h : Inv s)
    (hc : pthread_join_op s th = JoinOut.ret code out s') : Inv s' := by
  cases hfind : find_thread_index s th with
  | none =>
    simp only [pthread_join_op, hfind] at hc
    cases hc
    exact h
  | some ti =>
    simp only [pthread_join_op, hfind] at hc
    by_cases h1 : (getTCB s ti).has_been_joined = true
    · rw [if_pos h1] at hc
      cases hc
      exact h
    · rw [if_neg h1] at hc
      by_cases h2 : ti = s.current_thread
      · rw [if_pos h2] at hc
        cases hc
        exact h
      · rw [if_neg h2] at hc
        by_cases h3 : statusOf s ti = ThreadStatus.EXITED
        · rw [if_pos h3] at hc
          cases hc
          refine reap_inv s h ti h3 ?_
          have := find_thread_index_lt s th ti hfind
          have h4 := h.nt_le
          rw [h.len]
          omega
        · rw [if_neg h3] at hc
          exact absurd hc (by simp)

theorem joinResume_preserves (s : SysState) (ti : Nat) (code : Int)
    (out : Option Int) (s' : SysState) (h : Inv s)
    (hti : statusOf s ti = ThreadStatus.EXITED)
    (htil : ti < s.num_threads)
    (hc : join_resume s ti = (code, out, s')) : Inv s' := by
  simp only [join_resume] at hc
  cases hc
  have htl : ti < s.tcb.length := by
    have := h.nt_le
    rw [h.len]
    omega
  have hreap := reap_inv s h ti hti htl
  have hcl : (reap s ti).current_thread < (reap s ti).tcb.length := by
    have h1 := hreap.cur_lt
    have h2 := hreap.nt_le
    rw [hreap.len]
    omega
  refine inv_update_neutral (reap s ti) hreap _ _ hcl ?_ ?_
  · rfl
  · rfl

/-- After the blocking path of `pthread_join` has recorded the caller in
`joined_by` of the target and blocked the caller, no thread is RUNNING and
the remaining invariant holds. -/
theorem joinBlock_pre (s : SysState) (h : Inv s) (hg : runningGuard s)
    (ti : Nat) (hti_lt : ti < s.num_threads)
    (htic : ti ≠ s.current_thread)
    (htil : statusOf s ti ≠ ThreadStatus.EXITED) :
    PreInv (joinBlockState s ti) := by
  have hcl : s.current_thread < s.tcb.length := by
    have h1 := h.cur_lt
    have h2 := h.nt_le
    rw [h.len]
    omega
  have htl : ti < s.tcb.length := by
    have h2 := h.nt_le
    rw [h.len]
    omega
  have hs1get_ti : getTCB (setTCB s ti
      { getTCB s ti with joined_by := (s.current_thread : Int) }) ti =
      { getTCB s ti with joined_by := (s.current_thread : Int) } :=
    getTCB_setTCB_self s ti _ htl
  have hs1get : ∀ i, i ≠ ti → getTCB (setTCB s ti
      { getTCB s ti with joined_by := (s.current_thread : Int) }) i =
      getTCB s i :=
    fun i hi => getTCB_setTCB_ne s ti i _ (fun hh => hi hh.symm)
  have hs2eq : joinBlockState s ti = setTCB (setTCB s ti
      { getTCB s ti with joined_by := (s.current_thread : Int) })
      s.current_thread
      { getTCB s s.current_thread with
        status := ThreadStatus.BLOCKED
        pending_join := some ti } := by
    simp only [joinBlockState]
    rw [hs1get s.current_thread (fun hh => htic hh.symm)]
  have hs1len : (setTCB s ti
      { getTCB s ti with joined_by := (s.current_thread : Int) }).tcb.length
      = s.tcb.length := by
    simp [setTCB]
  have hs2get_c : getTCB (joinBlockState s ti) s.current_thread =
      { getTCB s s.current_thread with
        status := ThreadStatus.BLOCKED
        pending_join := some ti } := by
    rw [hs2eq]
    exact getTCB_setTCB_self _ _ _ (by rw [hs1len]; exact hcl)
  have hs2get_ti : getTCB (joinBlockState s ti) ti =
      { getTCB s ti with joined_by := (s.current_thread : Int) } := by
    rw [hs2eq, getTCB_setTCB_ne _ _ _ _ (fun hh => htic hh.symm), hs1get_ti]
  have hs2get : ∀ i, i ≠ ti → i ≠ s.current_thread →
      getTCB (joinBlockState s ti) i = getTCB s i := by
    intro i hi1 hi2
    rw [hs2eq, getTCB_setTCB_ne _ _ _ _ (fun hh => hi2 hh.symm),
      hs1get i hi1]
  have hstat_c : statusOf (joinBlockState s ti) s.current_thread =
      ThreadStatus.BLOCKED := by rw [statusOf, hs2get_c]
  have hstat : ∀ i, i ≠ s.current_thread →
      statusOf (joinBlockState s ti) i = statusOf s i := by
    intro i hi
    by_cases hit : i = ti
    · subst hit
      rw [statusOf, hs2get_ti]
      rfl
    · rw [statusOf, hs2get i hit hi, statusOf]
  have hjb_ti : (getTCB (joinBlockState s ti) ti).joined_by =
      (s.current_thread : Int) := by rw [hs2get_ti]
  have hjb : ∀ i, i ≠ ti → (getTCB (joinBlockState s ti) i).joined_by =
      (getTCB s i).joined_by := by
    intro i hi
    by_cases hic : i = s.current_thread
    · subst hic
      rw [hs2get_c]
    · rw [hs2get i hi hic]
  have hlive : ∀ i, (statusOf (joinBlockState s ti) i ≠
      ThreadStatus.EXITED ↔ statusOf s i ≠ ThreadStatus.EXITED) := by
    intro i
    by_cases hic : i = s.current_thread
    · subst hic
      rw [hstat_c, hg]
      simp
    · rw [hstat i hic]
  have hq : ∀ j, queueCount (joinBlockState s ti) j = queueCount s j :=
    fun j => rfl
  have hcastc : ((s.current_thread : Int)).toNat = s.current_thread := by
    simp
  refine ⟨h.inited, ?_, h.nt_pos, h.nt_le, h.cur_lt, ?_, ?_, ?_, ?_, ?_,
    ?_, ?_, ?_⟩
  · rw [hs2eq]
    show ((setTCB s ti _).tcb.set _ _).length = MAX_THREADS
    simp [setTCB, h.len]
  · intro i hi
    by_cases hic : i = s.current_thread
    · subst hic
      rw [hstat_c] at hi
      exact absurd hi (by simp)
    · rw [hstat i hic] at hi
      exact hic (h.run_cur i hi)
  · intro i
    by_cases hit : i = ti
    · subst hit
      rw [hjb_ti]
      refine Or.inr ⟨Int.natCast_nonneg _, ?_⟩
      exact_mod_cast h.cur_lt
    · rw [hjb i hit]
      exact h.jb_vals i
  · intro i hl hjb2
    by_cases hit : i = ti
    · subst hit
      rw [hjb_ti, hcastc, hstat_c]
    · rw [hjb i hit] at hjb2 ⊢
      have hlpre := (hlive i).mp hl
      have hb := h.jb_blocked i hlpre hjb2
      have hne : (getTCB s i).joined_by.toNat ≠ s.current_thread := by
        intro hh
        rw [hh, hg] at hb
        exact ThreadStatus.noConfusion hb
      rw [hstat _ hne]
      exact hb
  · intro i i' hl1 hl2 hjb1 hjbeq
    by_cases hit : i = ti
    · by_cases hit' : i' = ti
      · rw [hit, hit']
      · exfalso
        rw [hit, hjb_ti] at hjbeq
        rw [hjb i' hit'] at hjbeq
        have hjv : (getTCB s i').joined_by = (s.current_thread : Int) :=
          hjbeq.symm
        have hnz : (getTCB s i').joined_by ≠ -1 := by
          rw [hjv]
          have := Int.natCast_nonneg s.current_thread
          omega
        have hl2' := (hlive i').mp hl2
        have hb := h.jb_blocked i' hl2' hnz
        rw [hjv, hcastc, hg] at hb
        exact ThreadStatus.noConfusion hb
    · by_cases hit' : i' = ti
      · exfalso
        rw [hjb i hit] at hjb1
        rw [hjb i hit] at hjbeq
        rw [hit', hjb_ti] at hjbeq
        have hl1' := (hlive i).mp hl1
        have hb := h.jb_blocked i hl1' hjb1
        rw [hjbeq, hcastc, hg] at hb
        exact ThreadStatus.noConfusion hb
      · rw [hjb i hit] at hjb1
        rw [hjb i hit, hjb i' hit'] at hjbeq
        exact h.jb_uniq i i' ((hlive i).mp hl1) ((hlive i').mp hl2)
          hjb1 hjbeq
  · intro j hj
    rw [hq j] at hj
    obtain ⟨hjl, hjb2⟩ := h.q_block j hj
    have hne : j ≠ s.current_thread := by
      intro hh
      rw [hh, hg] at hjb2
      exact ThreadStatus.noConfusion hjb2
    rw [hstat j hne]
    exact ⟨hjl, hjb2⟩
  · intro j
    rw [hq j]
    exact h.q_once j
  · intro j hj i hl
    rw [hq j] at hj
    by_cases hit : i = ti
    · subst hit
      rw [hjb_ti]
      intro hh
      have hcj : s.current_thread = j := by exact_mod_cast hh
      obtain ⟨_, hjb2⟩ := h.q_block j hj
      rw [← hcj, hg] at hjb2
      exact ThreadStatus.noConfusion hjb2
    · rw [hjb i hit]
      exact h.q_nojoin j hj i ((hlive i).mp hl)
  · exact h.sem_zero

theorem joinBlock_preserves (s : SysState) (th : Int) (s' : SysState)
    (h : Inv s) (hg : runningGuard s)
    (hc : pthread_join_op s th = JoinOut.blocked (StepOut.next s')) :
    Inv s' := by
  cases hfind : find_thread_index s th with
  | none =>
    simp only [pthread_join_op, hfind] at hc
    exact JoinOut.noConfusion hc
  | some ti =>
    simp only [pthread_join_op, hfind] at hc
    by_cases h1 : (getTCB s ti).has_been_joined = true
    · rw [if_pos h1] at hc
      exact JoinOut.noConfusion hc
    · rw [if_neg h1] at hc
      by_cases h2 : ti = s.current_thread
      · rw [if_pos h2] at hc
        exact JoinOut.noConfusion hc
      · rw [if_neg h2] at hc
        by_cases h3 : statusOf s ti = ThreadStatus.EXITED
        · rw [if_pos h3] at hc
          exact JoinOut.noConfusion hc
        · rw [if_neg h3] at hc
          have hsched := JoinOut.blocked.inj hc
          exact schedule_preserves _ (joinBlock_pre s h hg ti
            (find_thread_index_lt s th ti hfind) h2 h3) _ hsched

theorem get_semaphore_data_mem (s : SysState) (k : Int) (d : SemaphoreData)
    (h : get_semaphore_data s k = some d) : (k, d) ∈ s.sems := by
  obtain ⟨l1, l2, hsplit, _, _, _⟩ := get_semaphore_data_some s k d h
  rw [hsplit]
  simp

theorem queueCount_append_entry (s : SysState) (e : Int × SemaphoreData)
    (j : Nat) : queueCount { s with sems := s.sems ++ [e] } j =
      queueCount s j + e.2.waiting_queue.count j := by
  simp [queueCount]

theorem semInit_preserves (s : SysState) (sem pshared : Int) (v : Nat)
    (alloc : Bool) (r : Int) (s' : SysState) (h : Inv s)
    (hc : sem_init_op s sem pshared v alloc = (r, s')) : Inv s' := by
  simp only [sem_init_op] at hc
  by_cases h1 : pshared ≠ 0 ∨ SEM_VALUE_MAX ≤ v
  · rw [if_pos h1] at hc
    cases hc
    exact h
  · rw [if_neg h1] at hc
    by_cases h2 : alloc = false
    · rw [if_pos h2] at hc
      cases hc
      exact h
    · rw [if_neg h2] at hc
      by_cases h3 : MAX_SEMAPHORES ≤ s.sems.length
      · rw [if_pos h3] at hc
        cases hc
        exact h
      · rw [if_neg h3] at hc
        cases hc
        refine ⟨h.inited, h.len, h.nt_pos, h.nt_le, h.cur_lt, h.run_cur,
          h.jb_vals, h.jb_blocked, h.jb_uniq, ?_, ?_, ?_, ?_⟩
        · intro j hj
          rw [queueCount_append_entry] at hj
          simp only [List.count_nil, Nat.add_zero] at hj
          exact h.q_block j hj
        · intro j
          rw [queueCount_append_entry]
          simp only [List.count_nil, Nat.add_zero]
          exact h.q_once j
        · intro j hj
          rw [queueCount_append_entry] at hj
          simp only [List.count_nil, Nat.add_zero] at hj
          exact h.q_nojoin j hj
        · intro p hp
          rcases List.mem_append.mp hp with hp | hp
          · exact h.sem_zero p hp
          · intro hne
            rcases List.mem_cons.mp hp with hp | hp
            · exfalso
              rw [hp] at hne
              exact hne rfl
            · simp at hp

theorem semDestroy_preserves (s : SysState) (sem : Int) (r : Int)
    (s' : SysState) (h : Inv s) (hc : sem_destroy_op s sem = (r, s')) :
    Inv s' := by
  cases hget : get_semaphore_data s sem with
  | none =>
    simp only [sem_destroy_op, hget] at hc
    cases hc
    exact h
  | some d =>
    simp only [sem_destroy_op, hget] at hc
    by_cases h1 : d.initialized = false
    · rw [if_pos h1] at hc
      cases hc
      exact h
    · rw [if_neg h1] at hc
      cases hc
      have hqle : ∀ j,
          queueCount { s with sems := remove_semaphore_mapping s.sems sem }
            j ≤ queueCount s j :=
        fun j => queueCount_remove_le s.sems sem j
      refine ⟨h.inited, h.len, h.nt_pos, h.nt_le, h.cur_lt, h.run_cur,
        h.jb_vals, h.jb_blocked, h.jb_uniq, ?_, ?_, ?_, ?_⟩
      · intro j hj
        exact h.q_block j (Nat.lt_of_lt_of_le hj (hqle j))
      · intro j
        exact Nat.le_trans (hqle j) (h.q_once j)
      · intro j hj
        exact h.q_nojoin j (Nat.lt_of_lt_of_le hj (hqle j))
      · intro p hp
        exact h.sem_zero p (mem_remove_semaphore_mapping s.sems sem p hp)

theorem semWaitRet_preserves (s : SysState) (sem : Int) (alloc : Bool)
    (r : Int) (s' : SysState) (h : Inv s)
    (hc : sem_wait_op s sem alloc = WaitOut.ret r s') : Inv s' := by
  cases hget : get_semaphore_data s sem with
  | none =>
    simp only [sem_wait_op, hget] at hc
    cases hc
    exact h
  | some d =>
    simp only [sem_wait_op, hget] at hc
    by_cases h1 : d.initialized = false
    · rw [if_pos h1] at hc
      cases hc
      exact h
    · rw [if_neg h1] at hc
      by_cases h2 : 0 < d.value
      · rw [if_pos h2] at hc
        cases hc
        have hq : ∀ j, queueCount (set_semaphore_data s sem
            { d with value := d.value - 1 }) j = queueCount s j := by
          intro j
          obtain ⟨c0, hset, horig⟩ :=
            queueCount_set_semaphore_data s sem d j hget
          rw [hset, horig]
        refine ⟨h.inited, h.len, h.nt_pos, h.nt_le, h.cur_lt, h.run_cur,
          h.jb_vals, h.jb_blocked, h.jb_uniq, ?_, ?_, ?_, ?_⟩
        · intro j hj
          rw [hq j] at hj
          exact h.q_block j hj
        · intro j
          rw [hq j]
          exact h.q_once j
        · intro j hj
          rw [hq j] at hj
          exact h.q_nojoin j hj
        · intro p hp hne
          rcases mem_set_semaphore_data s sem d _ hget p hp with hmem | hpe
          · exact h.sem_zero p hmem hne
          · exfalso
            rw [hpe] at hne
            have hdq : d.waiting_queue ≠ [] := hne
            have h0 : d.value = 0 :=
              h.sem_zero (sem, d) (get_semaphore_data_mem s sem d hget) hdq
            omega
      · rw [if_neg h2] at hc
        by_cases h3 : d.queue_capacity ≤ d.waiting_queue.length
        · rw [if_pos h3] at hc
          cases halloc : alloc with
          | true =>
            rw [halloc, if_pos rfl] at hc
            exact WaitOut.noConfusion hc
          | false =>
            rw [halloc, if_neg (by simp)] at hc
            cases hc
            exact h
        · rw [if_neg h3] at hc
          exact WaitOut.noConfusion hc

/-- After the blocking path of `sem_wait` has enqueued the caller and
blocked it, no thread is RUNNING and the remaining invariant holds.
`d2` is the semaphore record with its queue possibly grown. -/
theorem waitBlock_pre (s : SysState) (h : Inv s) (hg : runningGuard s)
    (sem : Int) (d d2 : SemaphoreData)
    (hget : get_semaphore_data s sem = some d)
    (hd2q : d2.waiting_queue = d.waiting_queue)
    (hd2v : d2.value = d.value) (hval : d.value = 0) :
    PreInv (waitBlockState s sem d2) := by
  have hcl : s.current_thread < s.tcb.length := by
    have h1 := h.cur_lt
    have h2 := h.nt_le
    rw [h.len]
    omega
  have hs1stat : ∀ i, statusOf (set_semaphore_data s sem
      { d2 with waiting_queue :=
          d2.waiting_queue ++ [s.current_thread] }) i = statusOf s i :=
    fun i => rfl
  have hstat_c : statusOf (waitBlockState s sem d2) s.current_thread =
      ThreadStatus.BLOCKED := statusOf_setStatusS_self _ _ _ hcl
  have hstat : ∀ i, i ≠ s.current_thread →
      statusOf (waitBlockState s sem d2) i = statusOf s i := by
    intro i hi
    show statusOf (setStatusS (set_semaphore_data s sem
      { d2 with waiting_queue := d2.waiting_queue ++ [s.current_thread] })
      s.current_thread ThreadStatus.BLOCKED) i = statusOf s i
    rw [statusOf_setStatusS_ne _ _ i _ (fun hh => hi hh.symm)]
    exact hs1stat i
  have hjb : ∀ i, (getTCB (waitBlockState s sem d2) i).joined_by =
      (getTCB s i).joined_by :=
    fun i => joined_by_setStatusS _ _ _ hcl i
  have hlive : ∀ i, (statusOf (waitBlockState s sem d2) i ≠
      ThreadStatus.EXITED ↔ statusOf s i ≠ ThreadStatus.EXITED) := by
    intro i
    by_cases hic : i = s.current_thread
    · subst hic
      rw [hstat_c, hg]
      simp
    · rw [hstat i hic]
  have hqc : ∀ j, queueCount (waitBlockState s sem d2) j =
      queueCount s j + (if s.current_thread = j then 1 else 0) := by
    intro j
    obtain ⟨c0, hset, horig⟩ := queueCount_set_semaphore_data s sem d j hget
    have h1 : queueCount (waitBlockState s sem d2) j =
        queueCount (set_semaphore_data s sem { d2 with waiting_queue :=
          d2.waiting_queue ++ [s.current_thread] }) j := rfl
    rw [h1, hset]
    simp only [hd2q]
    rw [horig, List.count_append]
    have : List.count j [s.current_thread] =
        if s.current_thread = j then 1 else 0 := by
      simp [List.count_singleton']
    omega
  have hqc0 : queueCount s s.current_thread = 0 := by
    by_contra hh
    have hpos := Nat.pos_of_ne_zero hh
    obtain ⟨_, hb⟩ := h.q_block _ hpos
    rw [hg] at hb
    exact ThreadStatus.noConfusion hb
  refine ⟨h.inited, ?_, h.nt_pos, h.nt_le, h.cur_lt, ?_, ?_, ?_, ?_, ?_,
    ?_, ?_, ?_⟩
  · show (setStatusS _ _ _).tcb.length = MAX_THREADS
    simp only [setStatusS, setTCB, List.length_set]
    exact h.len
  · intro i hi
    by_cases hic : i = s.current_thread
    · subst hic
      rw [hstat_c] at hi
      exact absurd hi (by simp)
    · rw [hstat i hic] at hi
      exact hic (h.run_cur i hi)
  · intro i
    rw [hjb i]
    exact h.jb_vals i
  · intro i hl hjb2
    rw [hjb i] at hjb2 ⊢
    have hb := h.jb_blocked i ((hlive i).mp hl) hjb2
    have hne : (getTCB s i).joined_by.toNat ≠ s.current_thread := by
      intro hh
      rw [hh, hg] at hb
      exact ThreadStatus.noConfusion hb
    rw [hstat _ hne]
    exact hb
  · intro i i' hl1 hl2 hjb1 hjbeq
    rw [hjb i] at hjb1
    rw [hjb i, hjb i'] at hjbeq
    exact h.jb_uniq i i' ((hlive i).mp hl1) ((hlive i').mp hl2) hjb1 hjbeq
  · intro j hj
    rw [hqc j] at hj
    by_cases hjc : s.current_thread = j
    · subst hjc
      rw [hstat_c]
      exact ⟨h.cur_lt, rfl⟩
    · rw [if_neg hjc, Nat.add_zero] at hj
      obtain ⟨hjl, hjb2⟩ := h.q_block j hj
      rw [hstat j (fun hh => hjc hh.symm)]
      exact ⟨hjl, hjb2⟩
  · intro j
    rw [hqc j]
    by_cases hjc : s.current_thread = j
    · subst hjc
      rw [hqc0]
      simp
    · rw [if_neg hjc, Nat.add_zero]
      exact h.q_once j
  · intro j hj i hl
    rw [hqc j] at hj
    rw [hjb i]
    by_cases hjc : s.current_thread = j
    · subst hjc
      intro hh
      have hnz : (getTCB s i).joined_by ≠ -1 := by
        rw [hh]
        have := Int.natCast_nonneg s.current_thread
        omega
      have hb := h.jb_blocked i ((hlive i).mp hl) hnz
      rw [hh] at hb
      simp only [Int.toNat_natCast] at hb
      rw [hg] at hb
      exact ThreadStatus.noConfusion hb
    · rw [if_neg hjc, Nat.add_zero] at hj
      exact h.q_nojoin j hj i ((hlive i).mp hl)
  · intro p hp hne
    rcases mem_set_semaphore_data s sem d _ hget p hp with hmem | hpe
    · exact h.sem_zero p hmem hne
    · rw [hpe]
      show d2.value = 0
      rw [hd2v, hval]

theorem semWaitBlock_preserves (s : SysState) (sem : Int) (alloc : Bool)
    (s' : SysState) (h : Inv s) (hg : runningGuard s)
    (hc : sem_wait_op s sem alloc = WaitOut.blocked (StepOut.next s')) :
    Inv s' := by
  cases hget : get_semaphore_data s sem with
  | none =>
    simp only [sem_wait_op, hget] at hc
    exact WaitOut.noConfusion hc
  | some d =>
    simp only [sem_wait_op, hget] at hc
    by_cases h1 : d.initialized = false
    · rw [if_pos h1] at hc
      exact WaitOut.noConfusion hc
    · rw [if_neg h1] at hc
      by_cases h2 : 0 < d.value
      · rw [if_pos h2] at hc
        exact WaitOut.noConfusion hc
      · rw [if_neg h2] at hc
        have hval : d.value = 0 := by omega
        by_cases h3 : d.queue_capacity ≤ d.waiting_queue.length
        · rw [if_pos h3] at hc
          cases halloc : alloc with
          | true =>
            rw [halloc, if_pos rfl] at hc
            have hsched := WaitOut.blocked.inj hc
            exact schedule_preserves _ (waitBlock_pre s h hg sem d
              { d with queue_capacity := d.queue_capacity * 2 } hget rfl rfl
              hval) _ hsched
          | false =>
            rw [halloc, if_neg (by simp)] at hc
            exact WaitOut.noConfusion hc
        · rw [if_neg h3] at hc
          have hsched := WaitOut.blocked.inj hc
          exact schedule_preserves _ (waitBlock_pre s h hg sem d d hget rfl
            rfl hval) _ hsched

theorem semPost_preserves (s : SysState) (sem : Int) (r : Int)
    (s' : SysState) (h : Inv s) (hc : sem_post_op s sem = (r, s')) :
    Inv s' := by
  cases hget : get_semaphore_data s sem with
  | none =>
    simp only [sem_post_op, hget] at hc
    cases hc
    exact h
  | some d =>
    simp only [sem_post_op, hget] at hc
    by_cases h1 : d.initialized = false
    · rw [if_pos h1] at hc
      cases hc
      exact h
    · rw [if_neg h1] at hc
      cases hdq : d.waiting_queue with
      | nil =>
        rw [hdq] at hc
        by_cases h2 : d.value < SEM_VALUE_MAX - 1
        · rw [if_pos h2] at hc
          cases hc
          have hq : ∀ j, queueCount (set_semaphore_data s sem
              { d with value := d.value + 1, waiting_queue := [] }) j =
              queueCount s j := by
            intro j
            obtain ⟨c0, hset, horig⟩ :=
              queueCount_set_semaphore_data s sem d j hget
            rw [hset, horig, hdq]
          refine ⟨h.inited, h.len, h.nt_pos, h.nt_le, h.cur_lt, h.run_cur,
            h.jb_vals, h.jb_blocked, h.jb_uniq, ?_, ?_, ?_, ?_⟩
          · intro j hj
            rw [hq j] at hj
            exact h.q_block j hj
          · intro j
            rw [hq j]
            exact h.q_once j
          · intro j hj
            rw [hq j] at hj
            exact h.q_nojoin j hj
          · intro p hp hne
            rcases mem_set_semaphore_data s sem d _ hget p hp with
              hmem | hpe
            · exact h.sem_zero p hmem hne
            · exfalso
              rw [hpe] at hne
              exact hne rfl
        · rw [if_neg h2] at hc
          cases hc
          exact h
      | cons w rest =>
        rw [hdq] at hc
        cases hc
        have hwlen : ∀ j, queueCount s j =
            (queueCount (set_semaphore_data s sem
              { d with waiting_queue := rest }) j) +
            List.count j [w] := by
          intro j
          obtain ⟨c0, hset, horig⟩ :=
            queueCount_set_semaphore_data s sem d j hget
          have hset' : queueCount (set_semaphore_data s sem
              { d with waiting_queue := rest }) j =
              c0 + List.count j rest := hset _
          rw [hset', horig, hdq]
          rw [show w :: rest = [w] ++ rest from rfl, List.count_append]
          omega
        have hcw1 : List.count w [w] = 1 := by simp
        have hqpos : 0 < queueCount s w := by
          have := hwlen w
          omega
        obtain ⟨hwlt, hwb⟩ := h.q_block w hqpos
        have hwtl : w < s.tcb.length := by
          have := h.nt_le
          rw [h.len]
          omega
        have hq0 : queueCount (set_semaphore_data s sem
            { d with waiting_queue := rest }) w = 0 := by
          have honce := h.q_once w
          have := hwlen w
          omega
        have hqeq : ∀ j, j ≠ w → queueCount (set_semaphore_data s sem
            { d with waiting_queue := rest }) j = queueCount s j := by
          intro j hj
          have := hwlen j
          have hcnt : List.count j [w] = 0 :=
            List.count_eq_zero.mpr (by simp only [List.mem_singleton]
                                       exact hj)
          omega
        have hstat_w : statusOf (setStatusS (set_semaphore_data s sem
            { d with waiting_queue := rest }) w ThreadStatus.READY) w =
            ThreadStatus.READY := statusOf_setStatusS_self _ _ _ hwtl
        have hstat : ∀ i, i ≠ w → statusOf (setStatusS
            (set_semaphore_data s sem { d with waiting_queue := rest }) w
            ThreadStatus.READY) i = statusOf s i := by
          intro i hi
          exact statusOf_setStatusS_ne _ _ i _ (fun hh => hi hh.symm)
        have hjb : ∀ i, (getTCB (setStatusS (set_semaphore_data s sem
            { d with waiting_queue := rest }) w ThreadStatus.READY)
            i).joined_by = (getTCB s i).joined_by :=
          fun i => joined_by_setStatusS _ _ _ hwtl i
        have hqall : ∀ j, queueCount (setStatusS (set_semaphore_data s sem
            { d with waiting_queue := rest }) w ThreadStatus.READY) j =
            queueCount (set_semaphore_data s sem
              { d with waiting_queue := rest }) j := fun j => rfl
        have hlive : ∀ i, (statusOf (setStatusS (set_semaphore_data s sem
            { d with waiting_queue := rest }) w ThreadStatus.READY) i ≠
            ThreadStatus.EXITED ↔
            statusOf s i ≠ ThreadStatus.EXITED) := by
          intro i
          by_cases hiw : i = w
          · subst hiw
            rw [hstat_w, hwb]
            simp
          · rw [hstat i hiw]
        have hjw_ne : ∀ i, statusOf s i ≠ ThreadStatus.EXITED →
            (getTCB s i).joined_by ≠ -1 →
            (getTCB s i).joined_by.toNat ≠ w := by
          intro i hl hnz hh
          rcases h.jb_vals i with hv | ⟨hv1, _⟩
          · exact hnz hv
          · have : (getTCB s i).joined_by = (w : Int) := by
              rw [← Int.toNat_of_nonneg hv1, hh]
            exact h.q_nojoin w hqpos i hl this
        refine ⟨h.inited, ?_, h.nt_pos, h.nt_le, h.cur_lt, ?_, ?_, ?_, ?_,
          ?_, ?_, ?_, ?_⟩
        · show (setStatusS _ _ _).tcb.length = MAX_THREADS
          simp only [setStatusS, setTCB, List.length_set]
          exact h.len
        · intro i hi
          by_cases hiw : i = w
          · subst hiw
            rw [hstat_w] at hi
            exact absurd hi (by simp)
          · rw [hstat i hiw] at hi
            exact h.run_cur i hi
        · intro i
          rw [hjb i]
          exact h.jb_vals i
        · intro i hl hjb2
          rw [hjb i] at hjb2 ⊢
          have hlpre := (hlive i).mp hl
          have hb := h.jb_blocked i hlpre hjb2
          rw [hstat _ (hjw_ne i hlpre hjb2)]
          exact hb
        · intro i i' hl1 hl2 hjb1 hjbeq
          rw [hjb i] at hjb1
          rw [hjb i, hjb i'] at hjbeq
          exact h.jb_uniq i i' ((hlive i).mp hl1) ((hlive i').mp hl2)
            hjb1 hjbeq
        · intro j hj
          rw [hqall j] at hj
          by_cases hjw : j = w
          · subst hjw
            rw [hq0] at hj
            exact absurd hj (by simp)
          · rw [hqeq j hjw] at hj
            obtain ⟨hjl, hjb2⟩ := h.q_block j hj
            rw [hstat j hjw]
            exact ⟨hjl, hjb2⟩
        · intro j
          rw [hqall j]
          by_cases hjw : j = w
          · subst hjw
            rw [hq0]
            omega
          · rw [hqeq j hjw]
            exact h.q_once j
        · intro j hj i hl
          rw [hqall j] at hj
          rw [hjb i]
          by_cases hjw : j = w
          · subst hjw
            rw [hq0] at hj
            exact absurd hj (by simp)
          · rw [hqeq j hjw] at hj
            exact h.q_nojoin j hj i ((hlive i).mp hl)
        · intro p hp hne
          rcases mem_set_semaphore_data s sem d _ hget p hp with hmem | hpe
          · exact h.sem_zero p hmem hne
          · rw [hpe]
            show d.value = 0
            exact h.sem_zero (sem, d) (get_semaphore_data_mem s sem d hget)
              (by rw [hdq]; simp)

/-- Every reachable state satisfies the inductive invariant. -/
theorem reachable_inv (s : SysState) (hr : Reachable s) : Inv s := by
  induction hr with
  | refl => exact inv_init
  | tail hab hbc ih =>
    cases hbc with
    | tick _ hs => exact tick_preserves _ _ ih hs
    | create f a alloc r ho _ hg hc =>
      exact create_preserves _ f a alloc r ho _ ih hc
    | texit v _ hg hc => exact exit_preserves _ v _ ih hg hc
    | joinRet th code out _ hg hc =>
      exact joinRet_preserves _ th code out _ ih hc
    | joinBlock th _ hg hc => exact joinBlock_preserves _ th _ ih hg hc
    | joinResume ti code out _ hg hp hex hlt hc =>
      exact joinResume_preserves _ ti code out _ ih hex hlt hc
    | semInit sem pshared v alloc r _ hg hc =>
      exact semInit_preserves _ sem pshared v alloc r _ ih hc
    | semWaitRet sem alloc r _ hg hc =>
      exact semWaitRet_preserves _ sem alloc r _ ih hc
    | semWaitBlock sem alloc _ hg hc =>
      exact semWaitBlock_preserves _ sem alloc _ ih hg hc
    | semPost sem r _ hg hc => exact semPost_preserves _ sem r _ ih hc
    | semDestroy sem r _ hg hc =>
      exact semDestroy_preserves _ sem r _ ih hc

/-! ### Concrete executions

These states replay small client programs of the runtime and are used to
settle the claims on concrete inputs. -/

/-- The state a `StepOut.next` carries (with a fallback default). -/
def nextOf (r : StepOut) (dflt : SysState) : SysState :=
  match r with
  | StepOut.next s => s
  | StepOut.term _ => dflt

/-- The state an immediately-returning `pthread_join` carries. -/
def retOf (j : JoinOut) (dflt : SysState) : SysState :=
  match j with
  | JoinOut.ret _ _ s => s
  | JoinOut.blocked _ => dflt

/-- The state after a blocking `pthread_join` switched the CPU. -/
def jblockedOf (j : JoinOut) (dflt : SysState) : SysState :=
  match j with
  | JoinOut.blocked (StepOut.next s) => s
  | _ => dflt

/-- The state after a blocking `sem_wait` switched the CPU. -/
def wblockedOf (w : WaitOut) (dflt : SysState) : SysState :=
  match w with
  | WaitOut.blocked (StepOut.next s) => s
  | _ => dflt

/-- main creates one thread (handle 1). -/
def c1a : SysState := (pthread_create initState 11 22 true).2.2

/-- The timer fires: thread 1 is scheduled. -/
def c1b : SysState := nextOf (signal_handler c1a) c1a

/-- Thread 1 exits with value 7; main is scheduled again. -/
def c1c : SysState := nextOf (pthread_exit 7 c1b) c1b

/-- main joins handle 1 (already exited): immediate success, reaping. -/
def c1d : SysState := retOf (pthread_join_op c1c 1) c1c

theorem reach_c1d : Reachable c1d := by
  have h0 : Reachable initState := Relation.ReflTransGen.refl
  have h1 : Reachable c1a := Relation.ReflTransGen.tail h0
    (Step.create initState 11 22 true _ _ c1a (by decide) rfl)
  have h2 : Reachable c1b := Relation.ReflTransGen.tail h1
    (Step.tick c1a c1b rfl)
  have h3 : Reachable c1c := Relation.ReflTransGen.tail h2
    (Step.texit c1b 7 c1c (by decide) rfl)
  exact Relation.ReflTransGen.tail h3
    (Step.joinRet c1c 1 _ _ c1d (by decide) rfl)

/-- main exits with value 5 (after creating thread 1); thread 1 runs. -/
def e2 : SysState := nextOf (pthread_exit 5 c1a) c1a

/-- Thread 1 joins handle 0 (main, already exited): success, reaping. -/
def e3 : SysState := retOf (pthread_join_op e2 0) e2

theorem reach_e3 : Reachable e3 := by
  have h0 : Reachable initState := Relation.ReflTransGen.refl
  have h1 : Reachable c1a := Relation.ReflTransGen.tail h0
    (Step.create initState 11 22 true _ _ c1a (by decide) rfl)
  have h2 : Reachable e2 := Relation.ReflTransGen.tail h1
    (Step.texit c1a 5 e2 (by decide) rfl)
  exact Relation.ReflTransGen.tail h2
    (Step.joinRet e2 0 _ _ e3 (by decide) rfl)

/-- main joins handle 1 (still READY): blocking path, thread 1 runs. -/
def u2 : SysState := jblockedOf (pthread_join_op c1a 1) c1a

/-- Thread 1 exits with value 9: the joiner is woken and scheduled. -/
def u3 : SysState := nextOf (pthread_exit 9 u2) u2

theorem reach_u2 : Reachable u2 := by
  have h0 : Reachable initState := Relation.ReflTransGen.refl
  have h1 : Reachable c1a := Relation.ReflTransGen.tail h0
    (Step.create initState 11 22 true _ _ c1a (by decide) rfl)
  exact Relation.ReflTransGen.tail h1
    (Step.joinBlock c1a 1 u2 (by decide) rfl)

theorem reach_u3 : Reachable u3 :=
  Relation.ReflTransGen.tail reach_u2 (Step.texit u2 9 u3 (by decide) rfl)

/-- main initializes a semaphore (handle 7) with value 0. -/
def t2a : SysState := (sem_init_op initState 7 0 0 true).2

/-- main waits on it with no other thread: the deadlocked blocking path. -/
def t2b : SysState := wblockedOf (sem_wait_op t2a 7 true) t2a

theorem reach_t2b : Reachable t2b := by
  have h0 : Reachable initState := Relation.ReflTransGen.refl
  have h1 : Reachable t2a := Relation.ReflTransGen.tail h0
    (Step.semInit initState 7 0 0 true _ t2a (by decide) rfl)
  exact Relation.ReflTransGen.tail h1
    (Step.semWaitBlock t2a 7 true t2b (by decide) rfl)

/-- One `pthread_create` by the current thread. -/
def mkc (s : SysState) : SysState := (pthread_create s 0 0 true).2.2

/-- One blocking `sem_wait` on handle 100 by the current thread. -/
def mkw (s : SysState) : SysState := wblockedOf (sem_wait_op s 100 true) s

/-- A semaphore (handle 100, value 0), then 16 worker threads. -/
def f1 : SysState := (sem_init_op initState 100 0 0 true).2
def f2 : SysState := mkc f1
def f3 : SysState := mkc f2
def f4 : SysState := mkc f3
def f5 : SysState := mkc f4
def f6 : SysState := mkc f5
def f7 : SysState := mkc f6
def f8 : SysState := mkc f7
def f9 : SysState := mkc f8
def f10 : SysState := mkc f9
def f11 : SysState := mkc f10
def f12 : SysState := mkc f11
def f13 : SysState := mkc f12
def f14 : SysState := mkc f13
def f15 : SysState := mkc f14
def f16 : SysState := mkc f15
def f17 : SysState := mkc f16

/-- main and then threads 1..15 all block on the semaphore: the queue
reaches its initial capacity of 16. -/
def g1 : SysState := mkw f17
def g2 : SysState := mkw g1
def g3 : SysState := mkw g2
def g4 : SysState := mkw g3
def g5 : SysState := mkw g4
def g6 : SysState := mkw g5
def g7 : SysState := mkw g6
def g8 : SysState := mkw g7
def g9 : SysState := mkw g8
def g10 : SysState := mkw g9
def g11 : SysState := mkw g10
def g12 : SysState := mkw g11
def g13 : SysState := mkw g12
def g14 : SysState := mkw g13
def g15 : SysState := mkw g14
def g16 : SysState := mkw g15

theorem step_mkc (s : SysState) (hg : runningGuard s) : Step s (mkc s) :=
  Step.create s 0 0 true (pthread_create s 0 0 true).1
    (pthread_create s 0 0 true).2.1 (mkc s) hg rfl

theorem reach_g16 : Reachable g16 := by
  have h0 : Reachable initState := Relation.ReflTransGen.refl
  have h1 : Reachable f1 := Relation.ReflTransGen.tail h0
    (Step.semInit initState 100 0 0 true _ f1 (by decide) rfl)
  have h2 : Reachable f2 := Relation.ReflTransGen.tail h1
    (step_mkc f1 (by decide))
  have h3 : Reachable f3 := Relation.ReflTransGen.tail h2
    (step_mkc f2 (by decide))
  have h4 : Reachable f4 := Relation.ReflTransGen.tail h3
    (step_mkc f3 (by decide))
  have h5 : Reachable f5 := Relation.ReflTransGen.tail h4
    (step_mkc f4 (by decide))
  have h6 : Reachable f6 := Relation.ReflTransGen.tail h5
    (step_mkc f5 (by decide))
  have h7 : Reachable f7 := Relation.ReflTransGen.tail h6
    (step_mkc f6 (by decide))
  have h8 : Reachable f8 := Relation.ReflTransGen.tail h7
    (step_mkc f7 (by decide))
  have h9 : Reachable f9 := Relation.ReflTransGen.tail h8
    (step_mkc f8 (by decide))
  have h10 : Reachable f10 := Relation.ReflTransGen.tail h9
    (step_mkc f9 (by decide))
  have h11 : Reachable f11 := Relation.ReflTransGen.tail h10
    (step_mkc f10 (by decide))
  have h12 : Reachable f12 := Relation.ReflTransGen.tail h11
    (step_mkc f11 (by decide))
  have h13 : Reachable f13 := Relation.ReflTransGen.tail h12
    (step_mkc f12 (by decide))
  have h14 : Reachable f14 := Relation.ReflTransGen.tail h13
    (step_mkc f13 (by decide))
  have h15 : Reachable f15 := Relation.ReflTransGen.tail h14
    (step_mkc f14 (by decide))
  have h16 : Reachable f16 := Relation.ReflTransGen.tail h15
    (step_mkc f15 (by decide))
  have h17 : Reachable f17 := Relation.ReflTransGen.tail h16
    (step_mkc f16 (by decide))
  have k1 : Reachable g1 := Relation.ReflTransGen.tail h17
    (Step.semWaitBlock f17 100 true g1 (by decide) rfl)
  have k2 : Reachable g2 := Relation.ReflTransGen.tail k1
    (Step.semWaitBlock g1 100 true g2 (by decide) rfl)
  have k3 : Reachable g3 := Relation.ReflTransGen.tail k2
    (Step.semWaitBlock g2 100 true g3 (by decide) rfl)
  have k4 : Reachable g4 := Relation.ReflTransGen.tail k3
    (Step.semWaitBlock g3 100 true g4 (by decide) rfl)
  have k5 : Reachable g5 := Relation.ReflTransGen.tail k4
    (Step.semWaitBlock g4 100 true g5 (by decide) rfl)
  have k6 : Reachable g6 := Relation.ReflTransGen.tail k5
    (Step.semWaitBlock g5 100 true g6 (by decide) rfl)
  have k7 : Reachable g7 := Relation.ReflTransGen.tail k6
    (Step.semWaitBlock g6 100 true g7 (by decide) rfl)
  have k8 : Reachable g8 := Relation.ReflTransGen.tail k7
    (Step.semWaitBlock g7 100 true g8 (by decide) rfl)
  have k9 : Reachable g9 := Relation.ReflTransGen.tail k8
    (Step.semWaitBlock g8 100 true g9 (by decide) rfl)
  have k10 : Reachable g10 := Relation.ReflTransGen.tail k9
    (Step.semWaitBlock g9 100 true g10 (by decide) rfl)
  have k11 : Reachable g11 := Relation.ReflTransGen.tail k10
    (Step.semWaitBlock g10 100 true g11 (by decide) rfl)
  have k12 : Reachable g12 := Relation.ReflTransGen.tail k11
    (Step.semWaitBlock g11 100 true g12 (by decide) rfl)
  have k13 : Reachable g13 := Relation.ReflTransGen.tail k12
    (Step.semWaitBlock g12 100 true g13 (by decide) rfl)
  have k14 : Reachable g14 := Relation.ReflTransGen.tail k13
    (Step.semWaitBlock g13 100 true g14 (by decide) rfl)
  have k15 : Reachable g15 := Relation.ReflTransGen.tail k14
    (Step.semWaitBlock g14 100 true g15 (by decide) rfl)
  exact Relation.ReflTransGen.tail k15
    (Step.semWaitBlock g15 100 true g16 (by decide) rfl)

/-! ### The claims -/

/-- Claim C1, counterexample: after a successful `pthread_join` on handle
1 the target record has `has_been_joined = true`, yet a second
`pthread_join` on handle 1 returns ESRCH, not EINVAL, because the
completed join cleared the record `thread_id` to 0 and the handle lookup
no longer finds it. -/
theorem C1_counterexample :
    Reachable c1d ∧ (getTCB c1d 1).has_been_joined = true ∧
    pthread_join_op c1d 1 = JoinOut.ret ESRCH none c1d ∧
    ESRCH ≠ EINVAL :=
  ⟨reach_c1d, by decide, by decide, by decide⟩

/-- Claim C1, amended: `pthread_join` returns EINVAL exactly when the
handle lookup still finds a record whose `has_been_joined` flag is true;
since a completed join clears the target `thread_id`, a second join on
the same (nonzero) handle fails with ESRCH instead. -/
theorem C1_amended (s : SysState) (th : Int) :
    (∃ out s2, pthread_join_op s th = JoinOut.ret EINVAL out s2) ↔
    (∃ ti, find_thread_index s th = some ti ∧
      (getTCB s ti).has_been_joined = true) := by
  constructor
  · rintro ⟨out, s2, hc⟩
    cases hfind : find_thread_index s th with
    | none =>
      simp only [pthread_join_op, hfind] at hc
      injection hc with h1 _
      exact absurd h1 (by decide)
    | some ti =>
      simp only [pthread_join_op, hfind] at hc
      by_cases h1 : (getTCB s ti).has_been_joined = true
      · exact ⟨ti, rfl, h1⟩
      · exfalso
        rw [if_neg h1] at hc
        by_cases h2 : ti = s.current_thread
        · rw [if_pos h2] at hc
          injection hc with hh _
          exact absurd hh (by decide)
        · rw [if_neg h2] at hc
          by_cases h3 : statusOf s ti = ThreadStatus.EXITED
          · rw [if_pos h3] at hc
            injection hc with hh _
            exact absurd hh (by decide)
          · rw [if_neg h3] at hc
            exact JoinOut.noConfusion hc
  · rintro ⟨ti, hfind, h1⟩
    refine ⟨none, s, ?_⟩
    simp only [pthread_join_op, hfind]
    rw [if_pos h1]

/-- Claim C1, witness for the amended statement: handle 0 still resolves
after main was joined by thread 1, so a repeated join on handle 0 does
return EINVAL. -/
theorem C1_amended_witness :
    ∃ out s2, pthread_join_op e3 0 = JoinOut.ret EINVAL out s2 :=
  (C1_amended e3 0).mpr ⟨0, by decide, by decide⟩

/-- Claim C2, counterexample: a blocking `sem_wait` that finds no READY
successor leaves the reachable state `t2b` with no RUNNING record at all
(the restored current thread stays BLOCKED), refuting the claim that
exactly one record is RUNNING in every reachable state. -/
theorem C2_counterexample :
    Reachable t2b ∧
    (∀ i, i < MAX_THREADS → statusOf t2b i ≠ ThreadStatus.RUNNING) ∧
    statusOf t2b t2b.current_thread = ThreadStatus.BLOCKED :=
  ⟨reach_t2b, by decide, by decide⟩

/-- Claim C2, amended: in every reachable state at most one record is
RUNNING and a RUNNING record sits at index `current_thread`; exactly one
record is RUNNING except in the deadlocked states where a blocking
operation found no READY slot, which have none. -/
theorem C2_amended (s : SysState) (hr : Reachable s) :
    (∀ i, statusOf s i = ThreadStatus.RUNNING → i = s.current_thread) ∧
    (∀ i k, statusOf s i = ThreadStatus.RUNNING →
      statusOf s k = ThreadStatus.RUNNING → i = k) := by
  have h := reachable_inv s hr
  refine ⟨h.run_cur, ?_⟩
  intro i k hi hk
  rw [h.run_cur i hi, h.run_cur k hk]

/-- Claim C2, witness: in the initial state the RUNNING record is slot 0,
the current thread. -/
theorem C2_amended_witness : (0 : Nat) = initState.current_thread :=
  (C2_amended initState Relation.ReflTransGen.refl).1 0 (by decide)

/-- Claim C5, counterexample: in the reachable state `u3`, reached after
`pthread_exit` of the joined thread 1 woke the joiner, record 1 still has
`joined_by = 0`, but thread 0 is RUNNING (not BLOCKED) and equals
`current_thread`; `pthread_exit` wakes the joiner without clearing
`joined_by`. -/
theorem C5_counterexample :
    Reachable u3 ∧ (getTCB u3 1).joined_by = 0 ∧
    statusOf u3 0 = ThreadStatus.RUNNING ∧ u3.current_thread = 0 :=
  ⟨reach_u3, by decide, by decide, by decide⟩

/-- Claim C5, amended: in every reachable state, if a record that has not
EXITED has `joined_by = j ≠ -1`, then record j is BLOCKED and (whenever
the current thread is RUNNING) j is not the current thread.  Once the
target exits, the stale `joined_by` may point at a READY or RUNNING
thread until the joiner completes the join. -/
theorem C5_amended (s : SysState) (hr : Reachable s) :
    ∀ i, statusOf s i ≠ ThreadStatus.EXITED →
    (getTCB s i).joined_by ≠ -1 →
    statusOf s (getTCB s i).joined_by.toNat = ThreadStatus.BLOCKED ∧
    (statusOf s s.current_thread = ThreadStatus.RUNNING →
      (getTCB s i).joined_by.toNat ≠ s.current_thread) := by
  intro i hl hjb
  have h := reachable_inv s hr
  have hb := h.jb_blocked i hl hjb
  refine ⟨hb, ?_⟩
  intro hrun hh
  rw [hh, hrun] at hb
  exact ThreadStatus.noConfusion hb

/-- Claim C5, witness for the amended statement: while main is blocked
joining thread 1, record 1 points back at the BLOCKED main thread. -/
theorem C5_amended_witness :
    statusOf u2 (getTCB u2 1).joined_by.toNat = ThreadStatus.BLOCKED ∧
    (statusOf u2 u2.current_thread = ThreadStatus.RUNNING →
      (getTCB u2 1).joined_by.toNat ≠ u2.current_thread) :=
  C5_amended u2 reach_u2 1 (by decide) (by decide)

/-- Claim C10 (confirmed): every error return of `pthread_join` (ESRCH,
EINVAL, EDEADLK) leaves the state completely unchanged, writes nothing
through `value_ptr`, and the caller keeps status RUNNING. -/
theorem C10_join_errors (s : SysState) (th : Int) (code : Int)
    (out : Option Int) (s2 : SysState)
    (hc : pthread_join_op s th = JoinOut.ret code out s2)
    (herr : code = ESRCH ∨ code = EINVAL ∨ code = EDEADLK) :
    s2 = s ∧ out = none ∧
    (statusOf s s.current_thread = ThreadStatus.RUNNING →
      statusOf s2 s2.current_thread = ThreadStatus.RUNNING) := by
  cases hfind : find_thread_index s th with
  | none =>
    simp only [pthread_join_op, hfind] at hc
    cases hc
    exact ⟨rfl, rfl, fun h => h⟩
  | some ti =>
    simp only [pthread_join_op, hfind] at hc
    by_cases h1 : (getTCB s ti).has_been_joined = true
    · rw [if_pos h1] at hc
      cases hc
      exact ⟨rfl, rfl, fun h => h⟩
    · rw [if_neg h1] at hc
      by_cases h2 : ti = s.current_thread
      · rw [if_pos h2] at hc
        cases hc
        exact ⟨rfl, rfl, fun h => h⟩
      · rw [if_neg h2] at hc
        by_cases h3 : statusOf s ti = ThreadStatus.EXITED
        · rw [if_pos h3] at hc
          cases hc
          exact absurd herr (by decide)
        · rw [if_neg h3] at hc
          exact JoinOut.noConfusion hc

/-- Claim C10, witness: a join on the unknown handle 99 in the initial
state returns ESRCH and changes nothing. -/
theorem C10_join_errors_witness :
    initState = initState ∧ (none : Option Int) = none ∧
    (statusOf initState initState.current_thread = ThreadStatus.RUNNING →
      statusOf initState initState.current_thread =
        ThreadStatus.RUNNING) :=
  C10_join_errors initState 99 ESRCH none initState (by decide)
    (Or.inl rfl)

/-- Claim C3 (confirmed): with at least one thread in the table,
`schedule` scans the slots circularly exactly once starting at
`(current_thread + 1) % num_threads`; the first READY slot found becomes
RUNNING and the new current; if none is READY and all slots are EXITED
the process is cleaned up and terminated; if none is READY but some slot
is alive, the original current is restored and set back to RUNNING only
when its status is neither EXITED nor BLOCKED. -/
theorem C3_schedule_spec (s : SysState) (_hn : 1 ≤ s.num_threads) :
    (∀ j, j < s.num_threads →
      statusOf s ((s.current_thread + 1 + j) % s.num_threads) =
        ThreadStatus.READY →
      (∀ j', j' < j →
        statusOf s ((s.current_thread + 1 + j') % s.num_threads) ≠
          ThreadStatus.READY) →
      schedule s = StepOut.next
        { (setStatusS s ((s.current_thread + 1 + j) % s.num_threads)
            ThreadStatus.RUNNING) with
          current_thread :=
            (s.current_thread + 1 + j) % s.num_threads }) ∧
    ((∀ j, j < s.num_threads →
      statusOf s ((s.current_thread + 1 + j) % s.num_threads) ≠
        ThreadStatus.READY) →
      (allExited s = true → schedule s = StepOut.term 0) ∧
      (allExited s = false → schedule s =
        (if statusOf s s.current_thread ≠ ThreadStatus.EXITED ∧
            statusOf s s.current_thread ≠ ThreadStatus.BLOCKED
         then StepOut.next (setStatusS s s.current_thread
            ThreadStatus.RUNNING)
         else StepOut.next s))) ∧
    (allExited s = true ↔ ∀ i, i < s.num_threads →
      statusOf s i = ThreadStatus.EXITED) := by
  refine ⟨?_, ?_, ?_⟩
  · intro j hj hready hmin
    have hsome : scheduleLoop s.tcb s.num_threads s.current_thread
        s.num_threads = some ((s.current_thread + 1 + j) % s.num_threads) :=
      ((scheduleLoop_char s.tcb s.num_threads s.num_threads
        s.current_thread).1 _).mpr ⟨j, hj, rfl, hready, hmin⟩
    simp only [schedule, hsome]
  · intro hnone
    have h0 : scheduleLoop s.tcb s.num_threads s.current_thread
        s.num_threads = none :=
      (scheduleLoop_char s.tcb s.num_threads s.num_threads
        s.current_thread).2.mpr hnone
    constructor
    · intro hall
      simp only [schedule, h0, hall, if_true]
    · intro hnall
      simp only [schedule, h0, hnall, Bool.false_eq_true, if_false]
  · constructor
    · intro hall i hi
      rw [allExited, List.all_eq_true] at hall
      have := hall i (List.mem_range.mpr hi)
      exact beq_iff_eq.mp (by exact this)
    · intro hall
      rw [allExited, List.all_eq_true]
      intro i hi
      exact beq_iff_eq.mpr (hall i (List.mem_range.mp hi))

/-- Claim C3, witness: in the two-thread state after one create, the scan
starting at slot 1 finds slot 1 READY and makes it current. -/
theorem C3_schedule_spec_witness :
    schedule c1a = StepOut.next
      { (setStatusS c1a ((c1a.current_thread + 1 + 0) % c1a.num_threads)
          ThreadStatus.RUNNING) with
        current_thread :=
          (c1a.current_thread + 1 + 0) % c1a.num_threads } :=
  (C3_schedule_spec c1a (by decide)).1 0 (by decide) (by decide)
    (fun j' hj' => absurd hj' (Nat.not_lt_zero j'))

/-- Claim C4 (confirmed): in every reachable state every semaphore with a
non-empty waiting queue has value 0; `sem_wait` on a positive-valued
semaphore decrements the value and leaves the queue untouched (it
enqueues only when the value is 0); and `sem_post` on a non-empty queue
dequeues the FIFO head, marks it READY and does not change the value. -/
theorem C4_semaphore_invariant :
    (∀ s, Reachable s → ∀ p ∈ s.sems, p.2.waiting_queue ≠ [] →
      p.2.value = 0) ∧
    (∀ s k alloc d, get_semaphore_data s k = some d →
      d.initialized = true → 0 < d.value →
      sem_wait_op s k alloc = WaitOut.ret 0
        (set_semaphore_data s k { d with value := d.value - 1 })) ∧
    (∀ s k d w rest, get_semaphore_data s k = some d →
      d.initialized = true → d.waiting_queue = w :: rest →
      w < s.tcb.length →
      (sem_post_op s k).1 = 0 ∧
      get_semaphore_data (sem_post_op s k).2 k =
        some { d with waiting_queue := rest } ∧
      statusOf (sem_post_op s k).2 w = ThreadStatus.READY) := by
  refine ⟨?_, ?_, ?_⟩
  · intro s hr p hp hne
    exact (reachable_inv s hr).sem_zero p hp hne
  · intro s k alloc d hget hinit hval
    simp only [sem_wait_op, hget]
    rw [if_neg (by rw [hinit]; simp), if_pos hval]
  · intro s k d w rest hget hinit hqw hwl
    have hpost : sem_post_op s k = (0, setStatusS (set_semaphore_data s k
        { d with waiting_queue := rest }) w ThreadStatus.READY) := by
      simp only [sem_post_op, hget]
      rw [if_neg (by rw [hinit]; simp), hqw]
    rw [hpost]
    refine ⟨rfl, ?_, ?_⟩
    · exact get_set_semaphore_data s k d _ hget
    · exact statusOf_setStatusS_self _ w _ hwl

/-- Claim C4, witness: the reachable deadlock state has the semaphore
with queue `[0]` and value 0; a positive-valued semaphore is decremented
without touching the queue; posting to the queued semaphore makes slot 0
READY. -/
theorem C4_semaphore_invariant_witness :
    ((7 : Int), (⟨true, 0, [0], 16⟩ : SemaphoreData)).2.value = 0 ∧
    sem_wait_op (sem_init_op initState 9 0 5 true).2 9 true =
      WaitOut.ret 0 (set_semaphore_data (sem_init_op initState 9 0 5
        true).2 9 ⟨true, 4, [], 16⟩) ∧
    statusOf (sem_post_op t2b 7).2 0 = ThreadStatus.READY := by
  refine ⟨?_, ?_, ?_⟩
  · exact C4_semaphore_invariant.1 t2b reach_t2b _ (by decide) (by decide)
  · exact C4_semaphore_invariant.2.1 (sem_init_op initState 9 0 5 true).2
      9 true ⟨true, 5, [], 16⟩ (by decide) rfl (by decide)
  · exact (C4_semaphore_invariant.2.2 t2b 7 ⟨true, 0, [0], 16⟩ 0 []
      (by decide) rfl rfl (by decide)).2.2

/-- Claim C6 (confirmed): on an initialized semaphore, `sem_post` with a
non-empty queue dequeues the FIFO head, marks that thread READY, leaves
the value and all other thread records unchanged and returns 0; with an
empty queue it increments the value if it is below `SEM_VALUE_MAX - 1`
and otherwise fails with -1 leaving everything unchanged; and it never
changes the current thread. -/
theorem C6_post_spec (s : SysState) (k : Int) (d : SemaphoreData)
    (hget : get_semaphore_data s k = some d)
    (hinit : d.initialized = true) :
    (∀ w rest, d.waiting_queue = w :: rest → w < s.tcb.length →
      (sem_post_op s k).1 = 0 ∧
      get_semaphore_data (sem_post_op s k).2 k =
        some { d with waiting_queue := rest } ∧
      statusOf (sem_post_op s k).2 w = ThreadStatus.READY ∧
      (∀ i, i ≠ w → getTCB (sem_post_op s k).2 i = getTCB s i)) ∧
    (d.waiting_queue = [] → d.value < SEM_VALUE_MAX - 1 →
      (sem_post_op s k).1 = 0 ∧
      get_semaphore_data (sem_post_op s k).2 k =
        some { d with value := d.value + 1, waiting_queue := [] } ∧
      (sem_post_op s k).2.tcb = s.tcb) ∧
    (d.waiting_queue = [] → ¬ d.value < SEM_VALUE_MAX - 1 →
      sem_post_op s k = (-1, s)) ∧
    (sem_post_op s k).2.current_thread = s.current_thread := by
  refine ⟨?_, ?_, ?_, ?_⟩
  · intro w rest hqw hwl
    have hpost : sem_post_op s k = (0, setStatusS (set_semaphore_data s k
        { d with waiting_queue := rest }) w ThreadStatus.READY) := by
      simp only [sem_post_op, hget]
      rw [if_neg (by rw [hinit]; simp), hqw]
    rw [hpost]
    refine ⟨rfl, get_set_semaphore_data s k d _ hget,
      statusOf_setStatusS_self _ w _ hwl, ?_⟩
    intro i hi
    exact getTCB_setTCB_ne _ w i _ (fun hh => hi hh.symm)
  · intro hqe hlt
    have hpost : sem_post_op s k = (0, set_semaphore_data s k
        { d with value := d.value + 1, waiting_queue := [] }) := by
      simp only [sem_post_op, hget]
      rw [if_neg (by rw [hinit]; simp), hqe, if_pos hlt]
    rw [hpost]
    exact ⟨rfl, get_set_semaphore_data s k d _ hget, rfl⟩
  · intro hqe hge
    simp only [sem_post_op, hget]
    rw [if_neg (by rw [hinit]; simp), hqe, if_neg hge]
  · cases hgg : get_semaphore_data s k with
    | none =>
      simp only [sem_post_op, hgg]
    | some d2 =>
      simp only [sem_post_op, hgg]
      by_cases h1 : d2.initialized = false
      · rw [if_pos h1]
      · rw [if_neg h1]
        cases hq2 : d2.waiting_queue with
        | nil => split <;> first | rfl | (split <;> rfl)
        | cons w2 rest2 => rfl

/-- Claim C6, witness: posting the queued semaphore of the deadlock state
returns 0, dequeues slot 0 and marks it READY without touching the
current thread. -/
theorem C6_post_spec_witness :
    (sem_post_op t2b 7).1 = 0 ∧
    statusOf (sem_post_op t2b 7).2 0 = ThreadStatus.READY ∧
    (sem_post_op t2b 7).2.current_thread = t2b.current_thread := by
  have h := C6_post_spec t2b 7 ⟨true, 0, [0], 16⟩ (by decide) rfl
  have h1 := h.1 0 [] rfl (by decide)
  exact ⟨h1.1, h1.2.2.1, h.2.2.2⟩

/-- Claim C7, counterexample: in the reachable state `g16` the semaphore
with handle 100 is initialized, yet `sem_wait` fails with -1 because the
waiting queue is at capacity and growing it fails allocation; so the
error return of `sem_wait` is not equivalent to the handle being
uninitialized or destroyed. -/
theorem C7_counterexample :
    Reachable g16 ∧
    (∃ d, get_semaphore_data g16 100 = some d ∧ d.initialized = true) ∧
    sem_wait_op g16 100 false = WaitOut.ret (-1) g16 :=
  ⟨reach_g16,
   ⟨⟨true, 0, [0, 1, 2, 3, 4, 5, 6, 7, 8, 9, 10, 11, 12, 13, 14, 15], 16⟩,
    by decide, rfl⟩,
   by decide⟩

/-- Claim C7, amended: `sem_wait` returns -1 exactly when the handle is
unknown, the record is not initialized, or the caller must block while
the queue is at capacity and the queue reallocation fails; on an
initialized semaphore with positive value it decrements the value and
returns 0 without blocking or touching any thread record. -/
theorem C7_amended (s : SysState) (k : Int) (alloc : Bool) :
    (sem_wait_op s k alloc = WaitOut.ret (-1) s ↔
      (get_semaphore_data s k = none ∨
       (∃ d, get_semaphore_data s k = some d ∧ d.initialized = false) ∨
       (∃ d, get_semaphore_data s k = some d ∧ d.initialized = true ∧
         d.value = 0 ∧ d.queue_capacity ≤ d.waiting_queue.length ∧
         alloc = false))) ∧
    (∀ d, get_semaphore_data s k = some d → d.initialized = true →
      0 < d.value →
      sem_wait_op s k alloc = WaitOut.ret 0
        (set_semaphore_data s k { d with value := d.value - 1 }) ∧
      (set_semaphore_data s k { d with value := d.value - 1 }).tcb =
        s.tcb ∧
      (set_semaphore_data s k
        { d with value := d.value - 1 }).current_thread =
        s.current_thread) := by
  constructor
  · constructor
    · intro hc
      cases hget : get_semaphore_data s k with
      | none => exact Or.inl rfl
      | some d =>
        simp only [sem_wait_op, hget] at hc
        by_cases h1 : d.initialized = false
        · exact Or.inr (Or.inl ⟨d, rfl, h1⟩)
        · rw [if_neg h1] at hc
          by_cases h2 : 0 < d.value
          · rw [if_pos h2] at hc
            injection hc with hcode _
            exact absurd hcode (by decide)
          · rw [if_neg h2] at hc
            by_cases h3 : d.queue_capacity ≤ d.waiting_queue.length
            · rw [if_pos h3] at hc
              cases halloc : alloc with
              | true =>
                rw [halloc, if_pos rfl] at hc
                exact WaitOut.noConfusion hc
              | false =>
                refine Or.inr (Or.inr ⟨d, rfl, ?_, by omega, h3, rfl⟩)
                cases hb : d.initialized with
                | true => rfl
                | false => exact absurd hb h1
            · rw [if_neg h3] at hc
              exact WaitOut.noConfusion hc
    · intro hd
      rcases hd with hnone | ⟨d, hget, hinit⟩ |
        ⟨d, hget, hinit, hval, hcap, halloc⟩
      · simp only [sem_wait_op, hnone]
      · simp only [sem_wait_op, hget]
        rw [if_pos hinit]
      · subst halloc
        simp only [sem_wait_op, hget]
        rw [if_neg (by rw [hinit]; simp), if_neg (by omega), if_pos hcap,
          if_neg (by simp)]
  · intro d hget hinit hval
    refine ⟨?_, rfl, rfl⟩
    simp only [sem_wait_op, hget]
    rw [if_neg (by rw [hinit]; simp), if_pos hval]

/-- Claim C7, witness for the amended statement: the full-queue
allocation-failure case does return -1. -/
theorem C7_amended_witness :
    sem_wait_op g16 100 false = WaitOut.ret (-1) g16 :=
  (C7_amended g16 100 false).1.mpr (Or.inr (Or.inr
    ⟨⟨true, 0, [0, 1, 2, 3, 4, 5, 6, 7, 8, 9, 10, 11, 12, 13, 14, 15], 16⟩,
     by decide, rfl, rfl, by decide, rfl⟩))

/-- A full thread table (used to exercise the capacity failure of
`pthread_create`). -/
def full150 : SysState := { initState with num_threads := MAX_THREADS }

/-- Claim C8 (confirmed): `pthread_create` fails with -1 when the table
has reached `MAX_THREADS`, leaving the state unchanged; and when the
stack allocation fails it rolls `num_threads` back, so a failed create
leaves `num_threads` (and the current thread) unchanged and stores no
handle. -/
theorem C8_create_spec (s : SysState) (f a : Int) (alloc : Bool)
    (hinit : s.init_done = true) :
    (MAX_THREADS ≤ s.num_threads →
      pthread_create s f a alloc = (-1, none, s)) ∧
    (s.num_threads < MAX_THREADS → alloc = false →
      (pthread_create s f a alloc).1 = -1 ∧
      (pthread_create s f a alloc).2.1 = none ∧
      (pthread_create s f a alloc).2.2.num_threads = s.num_threads ∧
      (pthread_create s f a alloc).2.2.current_thread =
        s.current_thread) := by
  have hinit2 : init_threading s = s := by
    rw [init_threading, if_pos hinit]
  constructor
  · intro hcap
    simp only [pthread_create, hinit2]
    rw [if_pos hcap]
  · intro hcap halloc
    subst halloc
    simp only [pthread_create, hinit2]
    rw [if_neg (by omega), if_pos trivial]
    exact ⟨rfl, rfl, rfl, rfl⟩

/-- Claim C8, witness: a failed allocation in the two-slot initial state
keeps `num_threads = 1`, and a create on a full table returns -1 with the
state unchanged. -/
theorem C8_create_spec_witness :
    ((pthread_create initState 0 0 false).1 = -1 ∧
     (pthread_create initState 0 0 false).2.1 = none ∧
     (pthread_create initState 0 0 false).2.2.num_threads =
       initState.num_threads ∧
     (pthread_create initState 0 0 false).2.2.current_thread =
       initState.current_thread) ∧
    pthread_create full150 0 0 true = (-1, none, full150) :=
  ⟨(C8_create_spec initState 0 0 false rfl).2 (by decide) rfl,
   (C8_create_spec full150 0 0 true rfl).1 (by decide)⟩

/-- Claim C9 (confirmed): `pthread_exit(v)` records v in the caller
record and sets its status EXITED; if a joiner is recorded it is marked
READY; if afterwards every slot below `num_threads` is EXITED the process
is cleaned up and terminated with exit code 0, and otherwise control
passes to the outcome of `schedule` (the call never returns to the
caller). -/
theorem C9_exit_spec (v : Int) (s : SysState)
    (hcl : s.current_thread < s.tcb.length)
    (hj1 : -1 ≤ (getTCB s s.current_thread).joined_by)
    (hj2 : (getTCB s s.current_thread).joined_by ≠
      (s.current_thread : Int))
    (hj3 : (getTCB s s.current_thread).joined_by <
      (s.tcb.length : Int)) :
    statusOf (exitWake (exitRecord v s)) s.current_thread =
      ThreadStatus.EXITED ∧
    (getTCB (exitWake (exitRecord v s)) s.current_thread).return_value =
      v ∧
    (∀ j : Int, (getTCB s s.current_thread).joined_by = j → j ≠ -1 →
      statusOf (exitWake (exitRecord v s)) j.toNat =
        ThreadStatus.READY) ∧
    (allExited (exitWake (exitRecord v s)) = true →
      pthread_exit v s = StepOut.term 0) ∧
    (allExited (exitWake (exitRecord v s)) = false →
      pthread_exit v s = schedule (exitWake (exitRecord v s))) ∧
    (allExited (exitWake (exitRecord v s)) = true ↔
      ∀ i, i < s.num_threads →
        statusOf (exitWake (exitRecord v s)) i = ThreadStatus.EXITED) := by
  have hs1get_c : getTCB (exitRecord v s) s.current_thread =
      { getTCB s s.current_thread with
        return_value := v
        status := ThreadStatus.EXITED } := getTCB_setTCB_self s _ _ hcl
  have hwake : exitWake (exitRecord v s) =
      (if (getTCB s s.current_thread).joined_by ≠ -1 then
        setStatusS (exitRecord v s)
          (getTCB s s.current_thread).joined_by.toNat ThreadStatus.READY
      else exitRecord v s) := by
    show (if (getTCB (exitRecord v s) s.current_thread).joined_by ≠ -1
        then setStatusS (exitRecord v s)
          (getTCB (exitRecord v s) s.current_thread).joined_by.toNat
          ThreadStatus.READY
      else exitRecord v s) = _
    rw [hs1get_c]
  have hnum : (exitWake (exitRecord v s)).num_threads = s.num_threads := by
    rw [hwake]
    split <;> rfl
  have hconj4 : allExited (exitWake (exitRecord v s)) = true →
      pthread_exit v s = StepOut.term 0 := by
    intro hall
    simp only [pthread_exit]
    rw [if_pos hall]
  have hconj5 : allExited (exitWake (exitRecord v s)) = false →
      pthread_exit v s = schedule (exitWake (exitRecord v s)) := by
    intro hnall
    simp only [pthread_exit]
    rw [if_neg (by simp [hnall])]
  have hconj6 : allExited (exitWake (exitRecord v s)) = true ↔
      ∀ i, i < s.num_threads →
        statusOf (exitWake (exitRecord v s)) i = ThreadStatus.EXITED := by
    constructor
    · intro hall i hi
      rw [allExited, List.all_eq_true] at hall
      exact beq_iff_eq.mp
        (hall i (List.mem_range.mpr (by rw [hnum]; exact hi)))
    · intro hall
      rw [allExited, List.all_eq_true]
      intro i hi
      refine beq_iff_eq.mpr (hall i ?_)
      have h2 := List.mem_range.mp hi
      rw [hnum] at h2
      exact h2
  by_cases hj : (getTCB s s.current_thread).joined_by = -1
  · rw [hwake, if_neg (fun hh => hh hj)]
    refine ⟨?_, ?_, ?_, ?_, ?_, ?_⟩
    · rw [statusOf, hs1get_c]
    · rw [hs1get_c]
    · intro j hjv hne
      rw [hj] at hjv
      exact absurd hjv.symm hne
    · rw [hwake, if_neg (fun hh => hh hj)] at hconj4
      exact hconj4
    · rw [hwake, if_neg (fun hh => hh hj)] at hconj5
      exact hconj5
    · rw [hwake, if_neg (fun hh => hh hj)] at hconj6
      exact hconj6
  · have hge : 0 ≤ (getTCB s s.current_thread).joined_by := by omega
    have hlt : (getTCB s s.current_thread).joined_by.toNat <
        (exitRecord v s).tcb.length := by
      have hlen : (exitRecord v s).tcb.length = s.tcb.length := by
        simp [exitRecord, setTCB]
      rw [hlen]
      omega
    have hnc : (getTCB s s.current_thread).joined_by.toNat ≠
        s.current_thread := by omega
    rw [hwake, if_pos hj]
    refine ⟨?_, ?_, ?_, ?_, ?_, ?_⟩
    · rw [statusOf_setStatusS_ne _ _ _ _ hnc, statusOf, hs1get_c]
    · rw [setStatusS, getTCB_setTCB_ne _ _ _ _ hnc, hs1get_c]
    · intro j hjv hne
      rw [hjv]
      exact statusOf_setStatusS_self _ _ _ (by rw [← hjv]; exact hlt)
    · rw [hwake, if_pos hj] at hconj4
      exact hconj4
    · rw [hwake, if_pos hj] at hconj5
      exact hconj5
    · rw [hwake, if_pos hj] at hconj6
      exact hconj6

/-- Claim C9, witness: thread 1 of the blocked-join state `u2` exits with
value 9: its record shows EXITED with return value 9, its joiner (main)
is READY, and since main is not EXITED the call continues into
`schedule`. -/
theorem C9_exit_spec_witness :
    statusOf (exitWake (exitRecord 9 u2)) u2.current_thread =
      ThreadStatus.EXITED ∧
    (getTCB (exitWake (exitRecord 9 u2)) u2.current_thread).return_value
      = 9 ∧
    (∀ j : Int, (getTCB u2 u2.current_thread).joined_by = j → j ≠ -1 →
      statusOf (exitWake (exitRecord 9 u2)) j.toNat =
        ThreadStatus.READY) ∧
    (allExited (exitWake (exitRecord 9 u2)) = true →
      pthread_exit 9 u2 = StepOut.term 0) ∧
    (allExited (exitWake (exitRecord 9 u2)) = false →
      pthread_exit 9 u2 = schedule (exitWake (exitRecord 9 u2))) ∧
    (allExited (exitWake (exitRecord 9 u2)) = true ↔
      ∀ i, i < u2.num_threads →
        statusOf (exitWake (exitRecord 9 u2)) i = ThreadStatus.EXITED) :=
  C9_exit_spec 9 u2 (by decide) (by decide) (by decide) (by decide)

end UThreads
